import Mathlib

/-!
# GoLaba9: the REST client of `main.go`

A shallow embedding of the request/response pipeline of `main.go`
(`sendRequest`, `login`, `listUsers`, `createUser`, `updateUser`,
`deleteUser`) together with the parts of the Go standard library the
pipeline runs through: `encoding/json` (the encoder for the two struct types,
the scanner, the string unquoting and the decoding into `map[string]string`,
`User` and `[]User`), `net/http` request construction and headers, and the
`fmt` verbs that are used.

Conventions.

* A Go `string` (and the text of a response body) is a Lean `String`: a
  sequence of Unicode scalar values, that is, well-formed UTF-8 text.  Every
  string a `User` or the token can hold in this program is of this kind:
  `fmt.Scan` and the JSON decoder both produce well-formed UTF-8.  A response
  body that is not well-formed UTF-8 lies outside the model.
* A response body is available in full: a read error in the middle of a body
  is not modelled.
* Go `int` is the 64-bit signed integer; a field of that type is an `Int`
  here and `inInt64` states the range.
* Process-wide state is passed explicitly as a `World`: the global `token`,
  the text written to standard output and the requests handed to
  `(*http.Client).Do`.
* The network and `net/url.Parse` are parameters (`Env`).
-/

namespace GoLaba9

/-! ## Data model (`main.go` lines 12 to 28) -/

/-- The constant `baseURL`. -/
def baseURL : String := "http://localhost:8000"

/-- The struct `User`; JSON keys `id`, `name`, `email`, `age`, none of them `omitempty`. -/
structure User where
  ID : Int
  Name : String
  Email : String
  Age : Int
deriving DecidableEq, Repr

/-- The struct `AuthRequest`; JSON keys `username`, `password`. -/
structure AuthRequest where
  Username : String
  Password : String
deriving DecidableEq, Repr

/-- The dynamic types that reach the `body interface{}` parameter of `sendRequest`;
a nil interface is `none : Option Payload`. -/
inductive Payload where
  | auth (a : AuthRequest)
  | user (u : User)
deriving DecidableEq, Repr

/-- The range of Go `int` (64 bit). -/
def inInt64 (i : Int) : Prop := -9223372036854775808 ≤ i ∧ i ≤ 9223372036854775807

instance (i : Int) : Decidable (inInt64 i) := by unfold inInt64; infer_instance

/-- Values of the Go type `error` that the pipeline can produce. -/
inductive GoError where
  /-- `(*http.Client).Do` failed: no response was received. -/
  | transport (msg : String)
  /-- `http.NewRequest` rejected the method. -/
  | invalidMethod (method : String)
  /-- `http.NewRequest` could not parse the URL. -/
  | invalidURL (msg : String)
  /-- An error made by `fmt.Errorf`, with its text. -/
  | errorf (text : String)
  /-- `io.EOF` from the JSON decoder: the body holds no value at all. -/
  | jsonEOF
  /-- `io.ErrUnexpectedEOF` from the JSON decoder: the body ends inside a value. -/
  | jsonUnexpectedEOF
  /-- `*json.SyntaxError`. -/
  | jsonSyntaxError
  /-- `*json.UnmarshalTypeError`: a JSON value of kind `value` met a Go value of type `goType`. -/
  | jsonUnmarshalType (value goType : String)
deriving DecidableEq, Repr

/-! ## `strconv` and `fmt` -/

/-- The decimal digit for a value below ten. -/
def digitChar (d : Nat) : Char := Char.ofNat (48 + d % 10)

/-- The loop of `strconv.formatBits` in base ten: digits are produced from the
least significant one; `fuel` bounds the number of iterations. -/
def formatBits : Nat → Nat → List Char → List Char
  | 0, _, acc => acc
  | fuel + 1, n, acc =>
    if n < 10 then digitChar n :: acc
    else formatBits fuel (n / 10) (digitChar (n % 10) :: acc)

/-- Decimal text of a natural number (`strconv.FormatUint(n, 10)`). -/
def formatUint (n : Nat) : List Char := formatBits (n + 1) n []

/-- Decimal text of an integer (`strconv.FormatInt(i, 10)`, the verb `%d`). -/
def formatInt (i : Int) : List Char :=
  if i < 0 then '-' :: formatUint i.natAbs else formatUint i.natAbs

/-- One chunk of text written to standard output.  The text of `err.Error()` for a
library error is kept symbolic. -/
inductive Out where
  | text (s : String)
  | errorText (e : GoError)
deriving DecidableEq, Repr

/-! ## `net/http`: headers, requests, responses -/

/-- The bytes allowed in a header field name (`httpguts.IsTokenRune`). -/
def isTokenRune (c : Char) : Bool :=
  c.isAlphanum || "!#$%&*+-.^_|~".data.contains c || c = Char.ofNat 39 || c = Char.ofNat 96

/-- The second pass of `textproto.CanonicalMIMEHeaderKey`: upper case at the start
and after a hyphen, lower case elsewhere. -/
def canonicalLoop : Bool → List Char → List Char
  | _, [] => []
  | upper, c :: cs =>
    (if upper then c.toUpper else c.toLower) :: canonicalLoop (c = '-') cs

/-- The function `textproto.CanonicalMIMEHeaderKey`. -/
def canonicalMIMEHeaderKey (s : String) : String :=
  if s.data.all isTokenRune then String.mk (canonicalLoop true s.data) else s

/-- The type `http.Header`, a map from canonical keys to value lists. -/
abbrev Header := List (String × List String)

/-- The method `Header.Set`: the key is canonicalised and its values replaced. -/
def Header.Set (h : Header) (key value : String) : Header :=
  let k := canonicalMIMEHeaderKey key
  (h.filter (fun kv => kv.1 ≠ k)) ++ [(k, [value])]

/-- The values stored under a canonical key (`h[key]`). -/
def Header.values (h : Header) (key : String) : Option (List String) :=
  h.lookup key

/-- The parts of `*http.Request` that `sendRequest` determines. -/
structure Request where
  Method : String
  URL : String
  Header : Header
  Body : String
deriving DecidableEq, Repr

/-- The parts of `*http.Response` that the program reads. -/
structure Response where
  StatusCode : Int
  Body : String
deriving DecidableEq, Repr

/-- The constant `http.StatusOK`. -/
def StatusOK : Int := 200

/-- What lies outside the program: `net/url.Parse` (`none` when the URL parses,
otherwise the error text) and the round trip of `(*http.Client).Do` (a response, or
the text of the transport error). -/
structure Env where
  urlParse : String → Option String
  Do : Request → Except String Response

/-- The check `validMethod` of `net/http`. -/
def validMethod (method : String) : Bool :=
  method.data ≠ [] && method.data.all isTokenRune

/-- The function `http.NewRequest` for a body held in a `bytes.Buffer`: an empty
method means `GET`; the method and the URL are validated; the header map starts empty. -/
def NewRequest (env : Env) (method url body : String) : Except GoError Request :=
  let method := if method = "" then "GET" else method
  if ¬ validMethod method then .error (.invalidMethod method)
  else match env.urlParse url with
    | some msg => .error (.invalidURL msg)
    | none => .ok { Method := method, URL := url, Header := [], Body := body }

/-! ## `encoding/json`: encoding -/

/-- The table `hex` of the encoder. -/
def hexChar (n : Nat) : Char :=
  if n % 16 < 10 then Char.ofNat (48 + n % 16) else Char.ofNat (87 + n % 16)

/-- The table `htmlSafeSet`: the ASCII characters written as they are. -/
def htmlSafe (c : Char) : Bool :=
  32 ≤ c.toNat && c.toNat < 128 && c ≠ '"' && c ≠ '\\' && c ≠ '<' && c ≠ '>' && c ≠ '&'

/-- What the encoder's `appendString` (with HTML escaping, as `json.Marshal` sets it)
writes for one character.  (Releases before Go 1.22 write backspace and form feed
as `\u0008` and `\u000c`; the decoder reads both spellings alike.) -/
def escapeChar (c : Char) : List Char :=
  if c.toNat < 128 then
    if htmlSafe c then [c]
    else if c = '\\' ∨ c = '"' then ['\\', c]
    else if c.toNat = 8 then ['\\', 'b']
    else if c.toNat = 12 then ['\\', 'f']
    else if c = '\n' then ['\\', 'n']
    else if c = '\r' then ['\\', 'r']
    else if c = '\t' then ['\\', 't']
    else ['\\', 'u', '0', '0', hexChar (c.toNat / 16), hexChar (c.toNat % 16)]
  else if c.toNat = 0x2028 ∨ c.toNat = 0x2029 then
    ['\\', 'u', '2', '0', '2', hexChar (c.toNat % 16)]
  else [c]

/-- The encoder's `appendString`: a JSON string literal for `s`. -/
def appendString (s : String) : List Char :=
  '"' :: (s.data.flatMap escapeChar ++ ['"'])

/-- The text `json.Marshal` writes for a `User`: all four fields, in declaration order. -/
def marshalUser (u : User) : List Char :=
  "\x7b\"id\":".data ++ formatInt u.ID ++ ",\"name\":".data ++ appendString u.Name ++
    ",\"email\":".data ++ appendString u.Email ++ ",\"age\":".data ++ formatInt u.Age ++ ['}']

/-- The text `json.Marshal` writes for an `AuthRequest`. -/
def marshalAuthRequest (a : AuthRequest) : List Char :=
  "\x7b\"username\":".data ++ appendString a.Username ++ ",\"password\":".data ++
    appendString a.Password ++ ['}']

/-- The function `json.Marshal` on the values the program passes; it cannot fail on them. -/
def Marshal : Payload → Except GoError String
  | .auth a => .ok (String.mk (marshalAuthRequest a))
  | .user u => .ok (String.mk (marshalUser u))

/-! ## `encoding/json`: the scanner -/

/-- A JSON value as the scanner delimits it.  A number keeps its literal text, a
string is already unquoted, an object keeps its members in source order,
duplicates included. -/
inductive JSON where
  | null
  | bool (b : Bool)
  | num (lit : String)
  | str (s : String)
  | arr (elems : List JSON)
  | obj (members : List (String × JSON))

/-- The function `isSpace` of the scanner. -/
def isSpace (c : Char) : Bool := c = ' ' || c = '\t' || c = '\r' || c = '\n'

/-- A hexadecimal digit, as `stateInStringEscU` and its successors accept it. -/
def isHex (c : Char) : Bool :=
  ('0' ≤ c && c ≤ '9') || ('a' ≤ c && c ≤ 'f') || ('A' ≤ c && c ≤ 'F')

/-- The value of a hexadecimal digit (`getu4`). -/
def hexVal (c : Char) : Nat :=
  if '0' ≤ c ∧ c ≤ '9' then c.toNat - 48
  else if 'a' ≤ c ∧ c ≤ 'f' then c.toNat - 87
  else c.toNat - 55

/-- The function `getu4` on four hexadecimal digits. -/
def getu4 (a b c d : Char) : Nat :=
  hexVal a * 4096 + hexVal b * 256 + hexVal c * 16 + hexVal d

/-- The escape `\uXXXX` at the head of the text, if there is one (the second
`getu4` of `unquote`, which looks for the partner of a surrogate). -/
def peekU4 : List Char → Option Nat
  | '\\' :: 'u' :: a :: b :: c :: d :: _ => some (getu4 a b c d)
  | _ => none

/-- The function `utf16.DecodeRune` on a surrogate `r1` and the escape that follows
it: the character of the pair, or `none` when the two do not form a pair. -/
def decodeSurrogates (r1 : Nat) (next : Option Nat) : Option Char :=
  match next with
  | some r2 =>
    if r1 < 0xdc00 ∧ 0xdc00 ≤ r2 ∧ r2 < 0xe000 then
      some (Char.ofNat ((r1 - 0xd800) * 1024 + (r2 - 0xdc00) + 0x10000))
    else none
  | none => none

/-- The loop of the decoder's `unquote` over the text between the quotes of a
literal the scanner has accepted; `skip` counts characters already consumed as the
second half of a surrogate pair.  Escapes are replaced by what they stand for, a
surrogate pair by its character, a surrogate without partner by U+FFFD. -/
def unquoteLoop : Nat → List Char → List Char
  | _, [] => []
  | skip + 1, _ :: rest => unquoteLoop skip rest
  | 0, '\\' :: 'u' :: a :: b :: c :: d :: rest =>
    let rr := getu4 a b c d
    if 0xd800 ≤ rr ∧ rr < 0xe000 then
      match decodeSurrogates rr (peekU4 rest) with
      | some ch => ch :: unquoteLoop 6 rest
      | none => Char.ofNat 0xfffd :: unquoteLoop 0 rest
    else Char.ofNat rr :: unquoteLoop 0 rest
  | 0, '\\' :: e :: rest =>
    (if e = 'b' then Char.ofNat 8
     else if e = 'f' then Char.ofNat 12
     else if e = 'n' then '\n'
     else if e = 'r' then '\r'
     else if e = 't' then '\t'
     else e) :: unquoteLoop 0 rest
  | 0, c :: rest => c :: unquoteLoop 0 rest

/-- The function `unquote` of the decoder. -/
def unquote (lit : List Char) : List Char := unquoteLoop 0 lit

/-- The step functions of the scanner (`stateBeginValue`, `stateInString`, ...). -/
inductive Step where
  | beginValueOrEmpty | beginValue | beginStringOrEmpty | beginString | endValue
  | inString | inStringEsc | inStringEscU | inStringEscU1 | inStringEscU12 | inStringEscU123
  | neg | one | zero | dot | dot0 | e | eSign | e0
  | t | tr | tru | f | fa | fal | fals | n | nu | nul
deriving DecidableEq, Repr

/-- An entry of the scanner's `parseState` stack, together with what has been read
of the enclosing value: the elements or members so far (latest first) and the key
of the member being read. -/
inductive Frame where
  /-- The entry `parseArrayValue`. -/
  | arrayValue (elems : List JSON)
  /-- The entry `parseObjectKey`: a key is being read, or has been read and a colon is due. -/
  | objectKey (members : List (String × JSON)) (key : String)
  /-- The entry `parseObjectValue`: the value for `key` is being read, or the member is
  complete and a comma or closing brace is due. -/
  | objectValue (members : List (String × JSON)) (key : String)

/-- The scanner between two characters: the step function in force, the
`parseState` stack, and the text of the literal under way (latest character first). -/
structure Scanner where
  step : Step
  parseState : List Frame
  lit : List Char

/-- The outcome of feeding a character to the scanner. -/
inductive Scan where
  /-- More input is needed. -/
  | more (s : Scanner)
  /-- The top-level value is complete (`scanEnd`). -/
  | done (v : JSON)
  /-- A syntax error (`scanError`). -/
  | error

/-- The constant `maxNestingDepth`. -/
def maxNestingDepth : Nat := 10000

/-- A value has just been completed: it joins the enclosing array or object, or it
is the top-level value.  The scanner goes on in `stateEndValue`. -/
def deliver (ps : List Frame) (v : JSON) : Scan :=
  match ps with
  | [] => .done v
  | .arrayValue es :: ps => .more ⟨.endValue, .arrayValue (v :: es) :: ps, []⟩
  | .objectKey ms _ :: ps =>
    match v with
    | .str k => .more ⟨.endValue, .objectKey ms k :: ps, []⟩
    | _ => .error
  | .objectValue ms k :: ps => .more ⟨.endValue, .objectValue ((k, v) :: ms) k :: ps, []⟩

/-- The step `stateEndValue`, after a value inside an array or object. -/
def stateEndValue (ps : List Frame) (c : Char) : Scan :=
  if isSpace c then .more ⟨.endValue, ps, []⟩
  else match ps with
    | [] => .error
    | .objectKey ms k :: ps =>
      if c = ':' then .more ⟨.beginValue, .objectValue ms k :: ps, []⟩ else .error
    | .objectValue ms _ :: ps =>
      if c = ',' then .more ⟨.beginString, .objectKey ms "" :: ps, []⟩
      else if c = '}' then deliver ps (.obj ms.reverse)
      else .error
    | .arrayValue es :: ps =>
      if c = ',' then .more ⟨.beginValue, .arrayValue es :: ps, []⟩
      else if c = ']' then deliver ps (.arr es.reverse)
      else .error

/-- A number literal ends in front of `c`: the number is delivered and `c` is
handled by `stateEndValue`; at top level the value is complete whatever `c` is. -/
def endNumber (s : Scanner) (c : Char) : Scan :=
  match deliver s.parseState (.num (String.mk s.lit.reverse)) with
  | .more s1 => stateEndValue s1.parseState c
  | r => r

/-- The step `stateBeginValue`. -/
def stateBeginValue (ps : List Frame) (c : Char) : Scan :=
  if isSpace c then .more ⟨.beginValue, ps, []⟩
  else if c = '\x7b' then
    if ps.length + 1 > maxNestingDepth then .error
    else .more ⟨.beginStringOrEmpty, .objectKey [] "" :: ps, []⟩
  else if c = '[' then
    if ps.length + 1 > maxNestingDepth then .error
    else .more ⟨.beginValueOrEmpty, .arrayValue [] :: ps, []⟩
  else if c = '"' then .more ⟨.inString, ps, []⟩
  else if c = '-' then .more ⟨.neg, ps, [c]⟩
  else if c = '0' then .more ⟨.zero, ps, [c]⟩
  else if c = 't' then .more ⟨.t, ps, []⟩
  else if c = 'f' then .more ⟨.f, ps, []⟩
  else if c = 'n' then .more ⟨.n, ps, []⟩
  else if '1' ≤ c ∧ c ≤ '9' then .more ⟨.one, ps, [c]⟩
  else .error

/-- The step `stateBeginString`. -/
def stateBeginString (ps : List Frame) (c : Char) : Scan :=
  if isSpace c then .more ⟨.beginString, ps, []⟩
  else if c = '"' then .more ⟨.inString, ps, []⟩
  else .error

/-- The steps after the mantissa digits: `state0` and what it falls through to. -/
def stateZero (s : Scanner) (c : Char) : Scan :=
  if c = '.' then .more ⟨.dot, s.parseState, c :: s.lit⟩
  else if c = 'e' ∨ c = 'E' then .more ⟨.e, s.parseState, c :: s.lit⟩
  else endNumber s c

/-- The step `stateESign`. -/
def stateESign (s : Scanner) (c : Char) : Scan :=
  if c.isDigit then .more ⟨.e0, s.parseState, c :: s.lit⟩ else .error

/-- A letter of `true`, `false` or `null` is due. -/
def expectLetter (s : Scanner) (c want : Char) (next : Step) : Scan :=
  if c = want then .more ⟨next, s.parseState, []⟩ else .error

/-- One character is fed to the scanner. -/
def Scanner.feed (s : Scanner) (c : Char) : Scan :=
  match s.step with
  | .beginValueOrEmpty =>
    if isSpace c then .more ⟨.beginValueOrEmpty, s.parseState, []⟩
    else if c = ']' then stateEndValue s.parseState c
    else stateBeginValue s.parseState c
  | .beginValue => stateBeginValue s.parseState c
  | .beginStringOrEmpty =>
    if isSpace c then .more ⟨.beginStringOrEmpty, s.parseState, []⟩
    else if c = '}' then
      match s.parseState with
      | .objectKey ms k :: ps => stateEndValue (.objectValue ms k :: ps) c
      | _ => .error
    else stateBeginString s.parseState c
  | .beginString => stateBeginString s.parseState c
  | .endValue => stateEndValue s.parseState c
  | .inString =>
    if c = '"' then deliver s.parseState (.str (String.mk (unquote s.lit.reverse)))
    else if c = '\\' then .more ⟨.inStringEsc, s.parseState, c :: s.lit⟩
    else if c.toNat < 32 then .error
    else .more ⟨.inString, s.parseState, c :: s.lit⟩
  | .inStringEsc =>
    if c = 'b' ∨ c = 'f' ∨ c = 'n' ∨ c = 'r' ∨ c = 't' ∨ c = '\\' ∨ c = '/' ∨ c = '"' then
      .more ⟨.inString, s.parseState, c :: s.lit⟩
    else if c = 'u' then .more ⟨.inStringEscU, s.parseState, c :: s.lit⟩
    else .error
  | .inStringEscU =>
    if isHex c then .more ⟨.inStringEscU1, s.parseState, c :: s.lit⟩ else .error
  | .inStringEscU1 =>
    if isHex c then .more ⟨.inStringEscU12, s.parseState, c :: s.lit⟩ else .error
  | .inStringEscU12 =>
    if isHex c then .more ⟨.inStringEscU123, s.parseState, c :: s.lit⟩ else .error
  | .inStringEscU123 =>
    if isHex c then .more ⟨.inString, s.parseState, c :: s.lit⟩ else .error
  | .neg =>
    if c = '0' then .more ⟨.zero, s.parseState, c :: s.lit⟩
    else if '1' ≤ c ∧ c ≤ '9' then .more ⟨.one, s.parseState, c :: s.lit⟩
    else .error
  | .one =>
    if c.isDigit then .more ⟨.one, s.parseState, c :: s.lit⟩ else stateZero s c
  | .zero => stateZero s c
  | .dot =>
    if c.isDigit then .more ⟨.dot0, s.parseState, c :: s.lit⟩ else .error
  | .dot0 =>
    if c.isDigit then .more ⟨.dot0, s.parseState, c :: s.lit⟩
    else if c = 'e' ∨ c = 'E' then .more ⟨.e, s.parseState, c :: s.lit⟩
    else endNumber s c
  | .e =>
    if c = '+' ∨ c = '-' then .more ⟨.eSign, s.parseState, c :: s.lit⟩ else stateESign s c
  | .eSign => stateESign s c
  | .e0 =>
    if c.isDigit then .more ⟨.e0, s.parseState, c :: s.lit⟩ else endNumber s c
  | .t => expectLetter s c 'r' .tr
  | .tr => expectLetter s c 'u' .tru
  | .tru => if c = 'e' then deliver s.parseState (.bool true) else .error
  | .f => expectLetter s c 'a' .fa
  | .fa => expectLetter s c 'l' .fal
  | .fal => expectLetter s c 's' .fals
  | .fals => if c = 'e' then deliver s.parseState (.bool false) else .error
  | .n => expectLetter s c 'u' .nu
  | .nu => expectLetter s c 'l' .nul
  | .nul => if c = 'l' then deliver s.parseState .null else .error

/-- The input is exhausted (`readValue` at `io.EOF`): a space is fed; if that
completes the value it is returned; otherwise the error is `io.EOF` when nothing
but white space was read and `io.ErrUnexpectedEOF` when something was. -/
def Scanner.atEOF (s : Scanner) : Except GoError JSON :=
  match s.feed ' ' with
  | .done v => .ok v
  | _ =>
    if s.step = .beginValue ∧ s.parseState.isEmpty then .error .jsonEOF
    else .error .jsonUnexpectedEOF

/-- The loop of `(*Decoder).readValue`: characters are fed until the first
top-level value is complete; what follows it is left unread. -/
def scanFrom (s : Scanner) : List Char → Except GoError JSON
  | [] => s.atEOF
  | c :: cs =>
    match s.feed c with
    | .more s1 => scanFrom s1 cs
    | .done v => .ok v
    | .error => .error .jsonSyntaxError

/-- The method `(*Decoder).readValue` on a fresh decoder. -/
def readValue (input : List Char) : Except GoError JSON :=
  scanFrom ⟨.beginValue, [], []⟩ input

/-! ## `encoding/json`: decoding into the Go types of the program

Type mismatches are recorded by the decoder with `saveError` and the first one is
what `Decode` returns; the callers in `main.go` discard the target on any error,
so decoding stops here at the first mismatch. -/

/-- The field `Value` of an `UnmarshalTypeError` for a JSON value. -/
def JSON.kind : JSON → String
  | .null => "null"
  | .bool _ => "bool"
  | .num _ => "number"
  | .str _ => "string"
  | .arr _ => "array"
  | .obj _ => "object"

/-- A Go `map[string]string`: keys are unique, a later store replaces an earlier one. -/
abbrev StringMap := List (String × String)

/-- The store `m[k] = v`. -/
def StringMap.store (m : StringMap) (k v : String) : StringMap :=
  (k, v) :: m.filter (fun kv => kv.1 ≠ k)

/-- The index expression `m[k]`: the zero value `""` when the key is absent. -/
def StringMap.index (m : StringMap) (k : String) : String :=
  (m.lookup k).getD ""

/-- One member of a JSON object is stored into a `map[string]string`: a string is
stored, `null` stores the zero value, anything else is a type mismatch. -/
def storeMember (m : StringMap) (kv : String × JSON) : Except GoError StringMap :=
  match kv.2 with
  | .str s => .ok (m.store kv.1 s)
  | .null => .ok (m.store kv.1 "")
  | v => .error (.jsonUnmarshalType v.kind "string")

/-- Unmarshalling into `map[string]string` (nil before the call): an object fills a
new map, `null` leaves the map nil, anything else is a type mismatch. -/
def unmarshalStringMap : JSON → Except GoError StringMap
  | .obj ms => ms.foldlM storeMember []
  | .null => .ok []
  | v => .error (.jsonUnmarshalType v.kind "map[string]string")

/-- The digits of `strconv.ParseUint` in base ten: `none` when the text is empty or
holds anything but digits. -/
def parseDigits (acc : Nat) : List Char → Option Nat
  | [] => some acc
  | c :: cs => if c.isDigit then parseDigits (acc * 10 + (c.toNat - 48)) cs else none

/-- The call `strconv.ParseInt(s, 10, 64)`: an optional sign, digits, and the range
of a 64-bit integer; `none` stands for either of its errors. -/
def ParseInt (s : List Char) : Option Int :=
  let negative : Bool := s.head? = some '-'
  let ds := if s.head? = some '+' ∨ s.head? = some '-' then s.tail else s
  if ds = [] then none
  else match parseDigits 0 ds with
    | none => none
    | some n =>
      if negative then (if n ≤ 9223372036854775808 then some (-(n : Int)) else none)
      else (if n ≤ 9223372036854775807 then some (n : Int) else none)

/-- A JSON value is stored into a field of type `int`: a number literal that
`ParseInt` accepts is stored, `null` changes nothing, anything else is a type mismatch. -/
def storeInt (old : Int) : JSON → Except GoError Int
  | .num lit =>
    match ParseInt lit.data with
    | some i => .ok i
    | none => .error (.jsonUnmarshalType ("number " ++ lit) "int")
  | .null => .ok old
  | v => .error (.jsonUnmarshalType v.kind "int")

/-- A JSON value is stored into a field of type `string`. -/
def storeString (old : String) : JSON → Except GoError String
  | .str s => .ok s
  | .null => .ok old
  | v => .error (.jsonUnmarshalType v.kind "string")

/-- The fields of `User`. -/
inductive UserField where
  | id | name | email | age
deriving DecidableEq, Repr

/-- The decoder's `foldName` on ASCII letters.  (On other characters Go folds by
Unicode simple case folding, which reaches no letter of `id`, `name`, `email`, `age`.) -/
def foldName (s : String) : List Char := s.data.map Char.toUpper

/-- The field a JSON key selects: an exact match first, then a match up to case. -/
def userField (key : String) : Option UserField :=
  if key = "id" then some .id
  else if key = "name" then some .name
  else if key = "email" then some .email
  else if key = "age" then some .age
  else if foldName key = foldName "id" then some .id
  else if foldName key = foldName "name" then some .name
  else if foldName key = foldName "email" then some .email
  else if foldName key = foldName "age" then some .age
  else none

/-- One member of a JSON object is stored into a `User`; a key that selects no
field is skipped. -/
def storeField (u : User) (kv : String × JSON) : Except GoError User :=
  match userField kv.1 with
  | some .id => (storeInt u.ID kv.2).map (fun i => { u with ID := i })
  | some .name => (storeString u.Name kv.2).map (fun s => { u with Name := s })
  | some .email => (storeString u.Email kv.2).map (fun s => { u with Email := s })
  | some .age => (storeInt u.Age kv.2).map (fun i => { u with Age := i })
  | none => .ok u

/-- The zero value of `User`. -/
def User.zero : User := ⟨0, "", "", 0⟩

/-- Unmarshalling into a zero `User`: an object sets the fields its keys select,
`null` changes nothing, anything else is a type mismatch. -/
def unmarshalUser : JSON → Except GoError User
  | .obj ms => ms.foldlM storeField User.zero
  | .null => .ok User.zero
  | v => .error (.jsonUnmarshalType v.kind "main.User")

/-- Unmarshalling into a nil `[]User`: an array yields its elements in order, `null`
leaves the slice nil, anything else is a type mismatch. -/
def unmarshalUsers : JSON → Except GoError (List User)
  | .arr es => es.mapM unmarshalUser
  | .null => .ok []
  | v => .error (.jsonUnmarshalType v.kind "[]main.User")

/-- The call `json.NewDecoder(resp.Body).Decode(&tokenResponse)` of `login`. -/
def decodeTokenResponse (body : String) : Except GoError StringMap :=
  readValue body.data >>= unmarshalStringMap

/-- The call `json.NewDecoder(resp.Body).Decode(&createdUser)` of `createUser`. -/
def decodeUser (body : String) : Except GoError User :=
  readValue body.data >>= unmarshalUser

/-- The call `json.NewDecoder(resp.Body).Decode(&users)` of `listUsers`. -/
def decodeUsers (body : String) : Except GoError (List User) :=
  readValue body.data >>= unmarshalUsers

/-! ## The program (`main.go` lines 14 and 30 to 167) -/

/-- The process state the five operations act on. -/
structure World where
  /-- The package variable `token`. -/
  token : String
  /-- What has been written to standard output, oldest first. -/
  stdout : List Out
  /-- The requests handed to `client.Do`, oldest first. -/
  wire : List Request
deriving DecidableEq, Repr

/-- The call `fmt.Println`: the operands separated by spaces, then a newline. -/
def Println (operands : List Out) (w : World) : World :=
  { w with stdout := w.stdout ++ operands.intersperse (.text " ") ++ [.text "\n"] }

/-- The line both `listUsers` and the messages of the other operations format
(`"ID: %d, Name: %s, Email: %s, Age: %d\n"`), after the given lead-in. -/
def formatUser (lead : String) (u : User) : String :=
  lead ++ "ID: " ++ String.mk (formatInt u.ID) ++ ", Name: " ++ u.Name ++
    ", Email: " ++ u.Email ++ ", Age: " ++ String.mk (formatInt u.Age) ++ "\n"

/-- The call `fmt.Printf` with a text that is fully formatted. -/
def Printf (text : String) (w : World) : World :=
  { w with stdout := w.stdout ++ [.text text] }

/-- Lines 32 to 51 of `sendRequest`: the URL, the marshalled body, the new request
and its two headers. -/
def buildRequest (env : Env) (token method endpoint : String) (body : Option Payload) :
    Except GoError Request :=
  let url := baseURL ++ endpoint
  let marshalled : Except GoError String :=
    match body with
    | some b => Marshal b
    | none => .ok ""
  match marshalled with
  | .error err => .error err
  | .ok jsonData =>
    match NewRequest env method url jsonData with
    | .error err => .error err
    | .ok req =>
      let req : Request :=
        if token ≠ "" then { req with Header := req.Header.Set "Authorization" ("Bearer " ++ token) }
        else req
      .ok { req with Header := req.Header.Set "Content-Type" "application/json" }

/-- The function `sendRequest`: the request is built and handed to `client.Do`. -/
def sendRequest (env : Env) (method endpoint : String) (body : Option Payload) (w : World) :
    Except GoError Response × World :=
  match buildRequest env w.token method endpoint body with
  | .error err => (.error err, w)
  | .ok req =>
    let w1 := { w with wire := w.wire ++ [req] }
    match env.Do req with
    | .error msg => (.error (.transport msg), w1)
    | .ok resp => (.ok resp, w1)

/-- The function `login`; `none` is the nil error. -/
def login (env : Env) (username password : String) (w : World) : Option GoError × World :=
  let authRequest : AuthRequest := { Username := username, Password := password }
  match sendRequest env "POST" "/login" (some (.auth authRequest)) w with
  | (.error err, w1) => (some err, w1)
  | (.ok resp, w1) =>
    if resp.StatusCode ≠ StatusOK then
      (some (.errorf ("login failed: " ++ resp.Body)), w1)
    else
      match decodeTokenResponse resp.Body with
      | .error err => (some err, w1)
      | .ok tokenResponse => (none, { w1 with token := tokenResponse.index "token" })

/-- The function `listUsers`. -/
def listUsers (env : Env) (w : World) : World :=
  match sendRequest env "GET" "/users" none w with
  | (.error err, w1) => Println [.text "Error:", .errorText err] w1
  | (.ok resp, w1) =>
    if resp.StatusCode ≠ StatusOK then
      Println [.text "Error:", .text resp.Body] w1
    else
      match decodeUsers resp.Body with
      | .error err => Println [.text "Error:", .errorText err] w1
      | .ok users =>
        users.foldl (fun w2 user => Printf (formatUser "" user) w2) (Println [.text "Users:"] w1)

/-- The function `createUser`. -/
def createUser (env : Env) (name email : String) (age : Int) (w : World) : World :=
  let user : User := { ID := 0, Name := name, Email := email, Age := age }
  match sendRequest env "POST" "/users" (some (.user user)) w with
  | (.error err, w1) => Println [.text "Error:", .errorText err] w1
  | (.ok resp, w1) =>
    if resp.StatusCode ≠ StatusOK then
      Println [.text "Error:", .text resp.Body] w1
    else
      match decodeUser resp.Body with
      | .error err => Println [.text "Error:", .errorText err] w1
      | .ok createdUser => Printf (formatUser "User created: " createdUser) w1

/-- The function `updateUser`. -/
def updateUser (env : Env) (id : Int) (name email : String) (age : Int) (w : World) : World :=
  let user : User := { ID := id, Name := name, Email := email, Age := age }
  match sendRequest env "PUT" ("/users/" ++ String.mk (formatInt id)) (some (.user user)) w with
  | (.error err, w1) => Println [.text "Error:", .errorText err] w1
  | (.ok resp, w1) =>
    if resp.StatusCode ≠ StatusOK then
      Println [.text "Error:", .text resp.Body] w1
    else
      Printf (formatUser "User updated: " user) w1

/-- The function `deleteUser`. -/
def deleteUser (env : Env) (id : Int) (w : World) : World :=
  match sendRequest env "DELETE" ("/users/" ++ String.mk (formatInt id)) none w with
  | (.error err, w1) => Println [.text "Error:", .errorText err] w1
  | (.ok resp, w1) =>
    if resp.StatusCode ≠ StatusOK then
      Println [.text "Error:", .text resp.Body] w1
    else
      Printf ("User with ID " ++ String.mk (formatInt id) ++ " deleted\n") w1

/-- A call of one of the five operations, as `mainMenu` dispatches them. -/
inductive Op where
  | login (username password : String)
  | listUsers
  | createUser (name email : String) (age : Int)
  | updateUser (id : Int) (name email : String) (age : Int)
  | deleteUser (id : Int)
deriving DecidableEq, Repr

/-- One operation is run against the environment it meets. -/
def Op.run (env : Env) : Op → World → World
  | .login username password, w => (GoLaba9.login env username password w).2
  | .listUsers, w => GoLaba9.listUsers env w
  | .createUser name email age, w => GoLaba9.createUser env name email age w
  | .updateUser id name email age, w => GoLaba9.updateUser env id name email age w
  | .deleteUser id, w => GoLaba9.deleteUser env id w

/-- A sequence of operations, each with the environment (server behaviour) it meets. -/
def runAll : List (Env × Op) → World → World
  | [], w => w
  | (env, op) :: rest, w => runAll rest (op.run env w)

/-- A mock server: every URL parses and every request is answered with the given
status and body. -/
def mockServer (status : Int) (body : String) : Env :=
  { urlParse := fun _ => none, Do := fun _ => .ok ⟨status, body⟩ }

/-! ## Notions the statements use -/

/-- What `readValue` does with the outcome of one step. -/
def continueWith (r : Scan) (rest : List Char) : Except GoError JSON :=
  match r with
  | .more s1 => scanFrom s1 rest
  | .done v => .ok v
  | .error => .error .jsonSyntaxError

/-- The four members of the JSON object for a `User`, in the order of the struct. -/
def User.members (u : User) : List (String × JSON) :=
  [("id", .num (String.mk (formatInt u.ID))), ("name", .str u.Name),
    ("email", .str u.Email), ("age", .num (String.mk (formatInt u.Age)))]

/-- The JSON object `json.Marshal` writes for a `User`. -/
def User.toJSON (u : User) : JSON := .obj u.members

/-- The target `u1` holds, field by field, either the value of `u` or still the
value of `u0`, the latter only if no member in `ms` names the field. -/
def fieldsFrom (u0 u u1 : User) (ms : List (String × JSON)) : Prop :=
  (u1.ID = u.ID ∨ (u1.ID = u0.ID ∧ ∀ kv ∈ ms, kv.1 ≠ "id")) ∧
  (u1.Name = u.Name ∨ (u1.Name = u0.Name ∧ ∀ kv ∈ ms, kv.1 ≠ "name")) ∧
  (u1.Email = u.Email ∨ (u1.Email = u0.Email ∧ ∀ kv ∈ ms, kv.1 ≠ "email")) ∧
  (u1.Age = u.Age ∨ (u1.Age = u0.Age ∧ ∀ kv ∈ ms, kv.1 ≠ "age"))

/-- The member of an object that a key denotes: the last one of that name. -/
def lastMember : List (String × JSON) → String → Option JSON
  | [], _ => none
  | kv :: ms, k =>
    match lastMember ms k with
    | some v => some v
    | none => if kv.1 = k then some kv.2 else none

/-- The string a string-or-null member stores. -/
def JSON.stringOrZero : JSON → String
  | .str s => s
  | _ => ""

/-- The arguments of the `sendRequest` call each operation makes: method, endpoint, body. -/
def Op.call : Op → String × String × Option Payload
  | .login username password => ("POST", "/login", some (.auth ⟨username, password⟩))
  | .listUsers => ("GET", "/users", none)
  | .createUser name email age => ("POST", "/users", some (.user ⟨0, name, email, age⟩))
  | .updateUser id name email age =>
    ("PUT", "/users/" ++ String.mk (formatInt id), some (.user ⟨id, name, email, age⟩))
  | .deleteUser id => ("DELETE", "/users/" ++ String.mk (formatInt id), none)

/-- The `sendRequest` call of an operation. -/
def Op.send (env : Env) (op : Op) (w : World) : Except GoError Response × World :=
  sendRequest env op.call.1 op.call.2.1 op.call.2.2 w

/-- The request carries `Authorization: Bearer <token>` for a non-empty token and no
`Authorization` header for the empty token. -/
def carriesToken (token : String) (req : Request) : Prop :=
  (token ≠ "" → req.Header.values "Authorization" = some ["Bearer " ++ token]) ∧
  (token = "" → req.Header.values "Authorization" = none)

/-- The JSON value `j` is a User object for `u`: an object whose members are
`id`, `name`, `email` and `age` with the values of `u`, in any order, the two
integers being in the range of `int`. -/
def isUserObject (u : User) (j : JSON) : Prop :=
  inInt64 u.ID ∧ inInt64 u.Age ∧ ∃ ms, j = .obj ms ∧ ms.Perm u.members

/-! ## Frame lemmas: what the operations leave alone -/

theorem Println_token (operands : List Out) (w : World) : (Println operands w).token = w.token := rfl

theorem Printf_token (text : String) (w : World) : (Printf text w).token = w.token := rfl

theorem Println_stdout (operands : List Out) (w : World) :
    (Println operands w).stdout = w.stdout ++ operands.intersperse (.text " ") ++ [.text "\n"] := rfl

theorem Println_wire (operands : List Out) (w : World) : (Println operands w).wire = w.wire := rfl

theorem Printf_wire (text : String) (w : World) : (Printf text w).wire = w.wire := rfl

theorem printUsers_token (users : List User) (w : World) :
    (users.foldl (fun w2 user => Printf (formatUser "" user) w2) w).token = w.token := by
  induction users generalizing w with
  | nil => rfl
  | cons u us ih => simp only [List.foldl_cons]; rw [ih]; rfl

theorem printUsers_wire (users : List User) (w : World) :
    (users.foldl (fun w2 user => Printf (formatUser "" user) w2) w).wire = w.wire := by
  induction users generalizing w with
  | nil => rfl
  | cons u us ih => simp only [List.foldl_cons]; rw [ih]; rfl

theorem printUsers_stdout (users : List User) (w : World) :
    (users.foldl (fun w2 user => Printf (formatUser "" user) w2) w).stdout =
      w.stdout ++ users.map (fun u => Out.text (formatUser "" u)) := by
  induction users generalizing w with
  | nil => simp
  | cons u us ih => simp only [List.foldl_cons]; rw [ih]; simp [Printf]

/-- The function `sendRequest` either fails before anything is sent, or hands exactly
the request `buildRequest` made to `client.Do`; it never touches the token or the
standard output. -/
theorem sendRequest_spec (env : Env) (method endpoint : String) (body : Option Payload)
    (w : World) :
    (∃ err, buildRequest env w.token method endpoint body = .error err ∧
        sendRequest env method endpoint body w = (.error err, w)) ∨
    (∃ req, buildRequest env w.token method endpoint body = .ok req ∧
        (sendRequest env method endpoint body w).2 = { w with wire := w.wire ++ [req] } ∧
        (sendRequest env method endpoint body w).1 =
          (match env.Do req with
            | .error msg => .error (.transport msg)
            | .ok resp => .ok resp)) := by
  unfold sendRequest
  cases hb : buildRequest env w.token method endpoint body with
  | error err => exact Or.inl ⟨err, rfl, rfl⟩
  | ok req =>
    refine Or.inr ⟨req, rfl, ?_, ?_⟩
    · simp only; cases env.Do req <;> rfl
    · simp only; cases env.Do req <;> rfl

theorem sendRequest_token (env : Env) (method endpoint : String) (body : Option Payload)
    (w : World) : (sendRequest env method endpoint body w).2.token = w.token := by
  rcases sendRequest_spec env method endpoint body w with ⟨err, _, h⟩ | ⟨req, _, h, _⟩
  · rw [h]
  · rw [h]

theorem sendRequest_stdout (env : Env) (method endpoint : String) (body : Option Payload)
    (w : World) : (sendRequest env method endpoint body w).2.stdout = w.stdout := by
  rcases sendRequest_spec env method endpoint body w with ⟨err, _, h⟩ | ⟨req, _, h, _⟩
  · rw [h]
  · rw [h]

theorem listUsers_token (env : Env) (w : World) : (listUsers env w).token = w.token := by
  have hw := sendRequest_token env "GET" "/users" none w
  unfold listUsers
  generalize sendRequest env "GET" "/users" none w = r at hw ⊢
  rcases r with ⟨_ | resp, w1⟩
  · exact hw
  · simp only
    split
    · exact hw
    · split
      · exact hw
      · rw [printUsers_token]; exact hw

theorem createUser_token (env : Env) (name email : String) (age : Int) (w : World) :
    (createUser env name email age w).token = w.token := by
  have hw := sendRequest_token env "POST" "/users" (some (.user ⟨0, name, email, age⟩)) w
  unfold createUser
  simp only
  generalize sendRequest env "POST" "/users" (some (.user ⟨0, name, email, age⟩)) w = r at hw ⊢
  rcases r with ⟨_ | resp, w1⟩
  · exact hw
  · simp only
    split
    · exact hw
    · split <;> exact hw

theorem updateUser_token (env : Env) (id : Int) (name email : String) (age : Int) (w : World) :
    (updateUser env id name email age w).token = w.token := by
  have hw := sendRequest_token env "PUT" ("/users/" ++ String.mk (formatInt id))
    (some (.user ⟨id, name, email, age⟩)) w
  unfold updateUser
  simp only
  generalize sendRequest env "PUT" ("/users/" ++ String.mk (formatInt id))
    (some (.user ⟨id, name, email, age⟩)) w = r at hw ⊢
  rcases r with ⟨_ | resp, w1⟩
  · exact hw
  · simp only
    split <;> exact hw

theorem deleteUser_token (env : Env) (id : Int) (w : World) :
    (deleteUser env id w).token = w.token := by
  have hw := sendRequest_token env "DELETE" ("/users/" ++ String.mk (formatInt id)) none w
  unfold deleteUser
  generalize sendRequest env "DELETE" ("/users/" ++ String.mk (formatInt id)) none w = r at hw ⊢
  rcases r with ⟨_ | resp, w1⟩
  · exact hw
  · simp only
    split <;> exact hw

/-- What `login` does once `sendRequest` has returned. -/
theorem login_eq (env : Env) (username password : String) (w : World) :
    login env username password w =
      (match sendRequest env "POST" "/login" (some (.auth ⟨username, password⟩)) w with
        | (.error err, w1) => (some err, w1)
        | (.ok resp, w1) =>
          if resp.StatusCode ≠ StatusOK then
            (some (.errorf ("login failed: " ++ resp.Body)), w1)
          else
            match decodeTokenResponse resp.Body with
            | .error err => (some err, w1)
            | .ok tokenResponse => (none, { w1 with token := tokenResponse.index "token" })) := rfl

/-- A call of `login` that returns an error leaves the token as it was. -/
theorem login_error_token (env : Env) (username password : String) (w : World)
    (h : (login env username password w).1 ≠ none) :
    (login env username password w).2.token = w.token := by
  have hw := sendRequest_token env "POST" "/login" (some (.auth ⟨username, password⟩)) w
  rw [login_eq] at h ⊢
  generalize sendRequest env "POST" "/login" (some (.auth ⟨username, password⟩)) w = r at hw h ⊢
  rcases r with ⟨_ | resp, w1⟩
  · exact hw
  · simp only at h ⊢
    by_cases hs : resp.StatusCode ≠ StatusOK
    · rw [if_pos hs]; exact hw
    · rw [if_neg hs] at h ⊢
      cases hd : decodeTokenResponse resp.Body with
      | error err => exact hw
      | ok m => rw [hd] at h; exact absurd rfl h

/-! ## Decimal text: shape and reading back -/

theorem digitChar_isDigit (n : Nat) : (digitChar n).isDigit = true := by
  unfold digitChar
  have h : n % 10 < 10 := Nat.mod_lt _ (by decide)
  generalize n % 10 = m at h
  interval_cases m <;> rfl

theorem digitChar_toNat (n : Nat) : (digitChar n).toNat - 48 = n % 10 := by
  unfold digitChar
  have h : n % 10 < 10 := Nat.mod_lt _ (by decide)
  generalize n % 10 = m at h
  interval_cases m <;> rfl

theorem formatBits_acc (fuel n : Nat) (acc : List Char) :
    formatBits fuel n acc = formatBits fuel n [] ++ acc := by
  induction fuel generalizing n acc with
  | zero => rfl
  | succ fuel ih =>
    unfold formatBits
    split
    · rfl
    · rw [ih, ih (n / 10) [digitChar (n % 10)]]; simp

/-- The digits of a positive number start with a digit from 1 to 9. -/
theorem formatBits_lead (fuel n : Nat) (hf : n < fuel) (hn : 0 < n) :
    ∃ m ds, 1 ≤ m ∧ m ≤ 9 ∧ (∀ c ∈ ds, c.isDigit = true) ∧
      formatBits fuel n [] = digitChar m :: ds := by
  induction fuel generalizing n with
  | zero => omega
  | succ fuel ih =>
    unfold formatBits
    split
    · exact ⟨n, [], hn, by omega, by simp, rfl⟩
    · rename_i h10
      obtain ⟨m, ds, h1, h9, hds, heq⟩ := ih (n / 10) (by omega) (by omega)
      refine ⟨m, ds ++ [digitChar (n % 10)], h1, h9, ?_, ?_⟩
      · intro c hc
        rcases List.mem_append.mp hc with h | h
        · exact hds c h
        · rw [List.mem_singleton.mp h]; exact digitChar_isDigit _
      · rw [formatBits_acc, heq]; rfl

theorem parseDigits_append (acc : Nat) (l1 l2 : List Char) :
    parseDigits acc (l1 ++ l2) = (parseDigits acc l1).bind (fun r => parseDigits r l2) := by
  induction l1 generalizing acc with
  | nil => rfl
  | cons c cs ih =>
    simp only [List.cons_append, parseDigits]
    split
    · exact ih _
    · rfl

theorem parseDigits_formatBits (fuel n : Nat) (hf : n < fuel) :
    parseDigits 0 (formatBits fuel n []) = some n := by
  induction fuel generalizing n with
  | zero => omega
  | succ fuel ih =>
    unfold formatBits
    split
    · rename_i h10
      simp only [parseDigits, digitChar_isDigit, digitChar_toNat, if_true]
      congr 1; omega
    · rename_i h10
      rw [formatBits_acc, parseDigits_append, ih (n / 10) (by omega)]
      simp only [Option.bind, parseDigits, digitChar_isDigit, digitChar_toNat, if_true, Nat.mod_mod]
      congr 1; omega

theorem formatBits_ne_nil (fuel n : Nat) (hf : n < fuel) : formatBits fuel n [] ≠ [] := by
  cases fuel with
  | zero => omega
  | succ fuel =>
    unfold formatBits
    split
    · simp
    · rw [formatBits_acc]; simp

theorem isDigit_ne_sign (c : Char) (h : c.isDigit = true) : c ≠ '-' ∧ c ≠ '+' := by
  constructor <;> (intro hc; rw [hc] at h; exact absurd h (by decide))

/-- Reading back the decimal text of a 64-bit integer yields the integer. -/
theorem ParseInt_formatInt (i : Int) (h : inInt64 i) : ParseInt (formatInt i) = some i := by
  obtain ⟨hlo, hhi⟩ := h
  unfold formatInt formatUint
  have hne := formatBits_ne_nil (i.natAbs + 1) i.natAbs (by omega)
  have hp := parseDigits_formatBits (i.natAbs + 1) i.natAbs (by omega)
  by_cases hneg : i < 0
  · rw [if_pos hneg]
    simp only [ParseInt, List.head?_cons, List.tail_cons, hne, if_false, hp, or_true, if_true,
      decide_True]
    rw [if_pos (by omega)]
    congr 1; omega
  · rw [if_neg hneg]
    obtain ⟨m, ds, heq⟩ : ∃ m ds, formatBits (i.natAbs + 1) i.natAbs [] = digitChar m :: ds := by
      by_cases h0 : i.natAbs = 0
      · exact ⟨0, [], by rw [h0]; rfl⟩
      · obtain ⟨m, ds, _, _, _, heq⟩ :=
          formatBits_lead (i.natAbs + 1) i.natAbs (by omega) (by omega)
        exact ⟨m, ds, heq⟩
    obtain ⟨hm, hpl⟩ := isDigit_ne_sign _ (digitChar_isDigit m)
    rw [heq] at hp
    simp only [ParseInt, heq, List.head?_cons, Option.some.injEq, hm, hpl, or_self, if_false,
      decide_False, hp, reduceCtorEq]
    rw [if_pos (by omega)]
    congr 1; omega

/-! ## The scanner on the encoder's output -/

theorem scanFrom_cons (s : Scanner) (c : Char) (rest : List Char) :
    scanFrom s (c :: rest) = continueWith (s.feed c) rest := by
  rw [scanFrom]; unfold continueWith; cases s.feed c <;> rfl

theorem scan_digits (ds : List Char) (hds : ∀ c ∈ ds, c.isDigit = true) (ps : List Frame)
    (lit rest : List Char) :
    scanFrom ⟨.one, ps, lit⟩ (ds ++ rest) = scanFrom ⟨.one, ps, ds.reverse ++ lit⟩ rest := by
  induction ds generalizing lit with
  | nil => rfl
  | cons d ds ih =>
    have hd : d.isDigit = true := hds d (List.mem_cons_self _ _)
    rw [List.cons_append, scanFrom_cons]
    simp only [Scanner.feed, hd, if_true, continueWith]
    rw [ih (fun c hc => hds c (List.mem_cons_of_mem _ hc))]
    simp

theorem stateBeginValue_lead (ps : List Frame) (m : Nat) (h1 : 1 ≤ m) (h9 : m ≤ 9) :
    stateBeginValue ps (digitChar m) = .more ⟨.one, ps, [digitChar m]⟩ := by
  interval_cases m <;> rfl

theorem feed_neg_lead (ps : List Frame) (lit : List Char) (m : Nat) (h1 : 1 ≤ m) (h9 : m ≤ 9) :
    Scanner.feed ⟨.neg, ps, lit⟩ (digitChar m) = .more ⟨.one, ps, digitChar m :: lit⟩ := by
  interval_cases m <;> rfl

/-- After the digits of an integer the scanner ends the number at a comma or a
closing brace. -/
theorem feed_after_digits (st : Step) (hst : st = .one ∨ st = .zero) (ps : List Frame)
    (lit : List Char) (c : Char) (hc : c = ',' ∨ c = '}') :
    Scanner.feed ⟨st, ps, lit⟩ c = endNumber ⟨.one, ps, lit⟩ c := by
  rcases hst with rfl | rfl <;> rcases hc with rfl | rfl <;> rfl

/-- The scanner reads the decimal text of an integer as one number literal. -/
theorem scan_formatInt (i : Int) (ps : List Frame) (c : Char) (hc : c = ',' ∨ c = '}')
    (rest : List Char) :
    scanFrom ⟨.beginValue, ps, []⟩ (formatInt i ++ c :: rest) =
      continueWith (endNumber ⟨.one, ps, (formatInt i).reverse⟩ c) rest := by
  unfold formatInt formatUint
  by_cases h0 : i.natAbs = 0
  · have hi : ¬ i < 0 := by omega
    rw [if_neg hi, h0]
    show scanFrom _ ('0' :: c :: rest) = _
    rw [scanFrom_cons]
    show scanFrom ⟨.zero, ps, ['0']⟩ (c :: rest) = _
    rw [scanFrom_cons, feed_after_digits _ (Or.inr rfl) _ _ _ hc]
    rfl
  · obtain ⟨m, ds, h1, h9, hds, heq⟩ :=
      formatBits_lead (i.natAbs + 1) i.natAbs (by omega) (by omega)
    rw [heq]
    by_cases hneg : i < 0
    · rw [if_pos hneg]
      simp only [List.cons_append]
      rw [scanFrom_cons]
      show scanFrom ⟨.neg, ps, ['-']⟩ _ = _
      rw [scanFrom_cons, feed_neg_lead _ _ _ h1 h9]
      show scanFrom ⟨.one, ps, _⟩ (ds ++ c :: rest) = _
      rw [scan_digits ds hds, scanFrom_cons, feed_after_digits _ (Or.inl rfl) _ _ _ hc]
      simp
    · rw [if_neg hneg]
      simp only [List.cons_append]
      rw [scanFrom_cons]
      show continueWith (stateBeginValue ps (digitChar m)) _ = _
      rw [stateBeginValue_lead _ _ h1 h9]
      show scanFrom ⟨.one, ps, _⟩ (ds ++ c :: rest) = _
      rw [scan_digits ds hds, scanFrom_cons, feed_after_digits _ (Or.inl rfl) _ _ _ hc]
      simp

theorem char_eq_ofNat (c : Char) : c = Char.ofNat c.toNat := (Char.ofNat_toNat c).symm

theorem toNat_ne_of_ne (c d : Char) (h : c.toNat ≠ d.toNat) : c ≠ d := by
  intro hc; exact h (by rw [hc])

/-- Inside a string literal the scanner takes what the encoder wrote for one
character and is inside the literal again. -/
theorem scan_escapeChar (c : Char) (ps : List Frame) (lit rest : List Char) :
    scanFrom ⟨.inString, ps, lit⟩ (escapeChar c ++ rest) =
      scanFrom ⟨.inString, ps, (escapeChar c).reverse ++ lit⟩ rest := by
  by_cases h : c.toNat < 128
  · rw [char_eq_ofNat c]
    generalize c.toNat = n at h
    interval_cases n <;> rfl
  · by_cases h2 : c.toNat = 0x2028 ∨ c.toNat = 0x2029
    · rw [char_eq_ofNat c]
      rcases h2 with h2 | h2 <;> rw [h2] <;> rfl
    · have hq : c ≠ '"' := toNat_ne_of_ne _ _ (by simp; omega)
      have hb : c ≠ '\\' := toNat_ne_of_ne _ _ (by simp; omega)
      have h32 : ¬ c.toNat < 32 := by omega
      simp only [escapeChar, h, h2, if_false, List.singleton_append, List.reverse_singleton]
      rw [scanFrom_cons]
      simp only [Scanner.feed, hq, hb, h32, if_false, continueWith]

theorem unquoteLoop_plain (c : Char) (hb : c ≠ '\\') (rest : List Char) :
    unquoteLoop 0 (c :: rest) = c :: unquoteLoop 0 rest := by
  rw [unquoteLoop] <;> intros <;> simp_all

/-- Unquoting what the encoder wrote for one character gives the character back. -/
theorem unquote_escapeChar (c : Char) (rest : List Char) :
    unquoteLoop 0 (escapeChar c ++ rest) = c :: unquoteLoop 0 rest := by
  by_cases h : c.toNat < 128
  · rw [char_eq_ofNat c]
    generalize c.toNat = n at h
    interval_cases n <;> rfl
  · by_cases h2 : c.toNat = 0x2028 ∨ c.toNat = 0x2029
    · rw [char_eq_ofNat c]
      rcases h2 with h2 | h2 <;> rw [h2] <;> rfl
    · have hb : c ≠ '\\' := toNat_ne_of_ne _ _ (by simp; omega)
      simp only [escapeChar, h, h2, if_false, List.singleton_append]
      exact unquoteLoop_plain c hb rest

theorem scan_escaped (s : List Char) (ps : List Frame) (lit rest : List Char) :
    scanFrom ⟨.inString, ps, lit⟩ (s.flatMap escapeChar ++ rest) =
      scanFrom ⟨.inString, ps, (s.flatMap escapeChar).reverse ++ lit⟩ rest := by
  induction s generalizing lit with
  | nil => rfl
  | cons c cs ih =>
    simp only [List.flatMap_cons, List.append_assoc]
    rw [scan_escapeChar, ih]
    simp

theorem unquote_escaped (s : List Char) : unquote (s.flatMap escapeChar) = s := by
  unfold unquote
  induction s with
  | nil => rfl
  | cons c cs ih =>
    simp only [List.flatMap_cons]
    rw [unquote_escapeChar, ih]

/-- The scanner reads the literal the encoder wrote for `s` as the string `s`. -/
theorem scan_appendString (s : String) (ps : List Frame) (rest : List Char) :
    scanFrom ⟨.inString, ps, []⟩ (s.data.flatMap escapeChar ++ '"' :: rest) =
      continueWith (deliver ps (.str s)) rest := by
  rw [scan_escaped, scanFrom_cons]
  simp only [Scanner.feed, if_true, List.append_nil, List.reverse_reverse, unquote_escaped]

/-- The scanner reads the text `json.Marshal` writes for a `User` as the object with
the four members `id`, `name`, `email`, `age`. -/
theorem readValue_marshalUser (u : User) : readValue (marshalUser u) = .ok u.toJSON := by
  unfold readValue marshalUser appendString
  simp only [List.append_assoc, List.cons_append]
  show scanFrom ⟨.beginValue, [.objectValue [] "id"], []⟩ (formatInt u.ID ++ ',' :: _) = _
  rw [scan_formatInt _ _ _ (Or.inl rfl)]
  simp only [endNumber, deliver, List.reverse_reverse, List.nil_append]
  show scanFrom ⟨.inString, [.objectValue [("id", .num (String.mk (formatInt u.ID)))] "name"], []⟩
    (u.Name.data.flatMap escapeChar ++ '"' :: _) = _
  rw [scan_appendString]
  show scanFrom ⟨.inString, [.objectValue [("name", .str u.Name),
      ("id", .num (String.mk (formatInt u.ID)))] "email"], []⟩
    (u.Email.data.flatMap escapeChar ++ '"' :: _) = _
  rw [scan_appendString]
  show scanFrom ⟨.beginValue, [.objectValue [("email", .str u.Email), ("name", .str u.Name),
      ("id", .num (String.mk (formatInt u.ID)))] "age"], []⟩ (formatInt u.Age ++ '}' :: _) = _
  rw [scan_formatInt _ _ _ (Or.inr rfl)]
  simp only [endNumber, deliver, List.reverse_reverse]
  rfl

/-! ## Decoding the members of a `User` object -/

theorem storeField_member (u0 u : User) (hid : inInt64 u.ID) (hage : inInt64 u.Age)
    (kv : String × JSON) (h : kv ∈ u.members) :
    (kv.1 = "id" ∧ storeField u0 kv = .ok { u0 with ID := u.ID }) ∨
    (kv.1 = "name" ∧ storeField u0 kv = .ok { u0 with Name := u.Name }) ∨
    (kv.1 = "email" ∧ storeField u0 kv = .ok { u0 with Email := u.Email }) ∨
    (kv.1 = "age" ∧ storeField u0 kv = .ok { u0 with Age := u.Age }) := by
  simp only [User.members, List.mem_cons, List.mem_singleton, List.not_mem_nil, or_false] at h
  rcases h with rfl | rfl | rfl | rfl
  · refine Or.inl ⟨rfl, ?_⟩
    show (storeInt u0.ID (.num (String.mk (formatInt u.ID)))).map _ = _
    simp only [storeInt, ParseInt_formatInt u.ID hid]; rfl
  · exact Or.inr (Or.inl ⟨rfl, rfl⟩)
  · exact Or.inr (Or.inr (Or.inl ⟨rfl, rfl⟩))
  · refine Or.inr (Or.inr (Or.inr ⟨rfl, ?_⟩))
    show (storeInt u0.Age (.num (String.mk (formatInt u.Age)))).map _ = _
    simp only [storeInt, ParseInt_formatInt u.Age hage]; rfl

theorem foldlM_storeField (u : User) (hid : inInt64 u.ID) (hage : inInt64 u.Age)
    (ms : List (String × JSON)) (hms : ∀ kv ∈ ms, kv ∈ u.members) (u0 : User) :
    ∃ u1, ms.foldlM storeField u0 = .ok u1 ∧ fieldsFrom u0 u u1 ms := by
  induction ms generalizing u0 with
  | nil => exact ⟨u0, rfl, by simp [fieldsFrom]⟩
  | cons kv ms ih =>
    have hkv := storeField_member u0 u hid hage kv (hms kv (List.mem_cons_self _ _))
    have hrest : ∀ kv ∈ ms, kv ∈ u.members := fun x hx => hms x (List.mem_cons_of_mem _ hx)
    rcases hkv with ⟨hk, hs⟩ | ⟨hk, hs⟩ | ⟨hk, hs⟩ | ⟨hk, hs⟩
    all_goals
      obtain ⟨u1, hf, h1, h2, h3, h4⟩ := ih hrest _
      refine ⟨u1, ?_, ?_⟩
      · rw [List.foldlM_cons, hs]; exact hf
      · simp only [fieldsFrom, List.mem_cons, forall_eq_or_imp, hk]
        simp only at h1 h2 h3 h4
        refine ⟨?_, ?_, ?_, ?_⟩
        · rcases h1 with h | ⟨h, hn⟩
          · exact Or.inl h
          · first | exact Or.inl h | exact Or.inr ⟨h, by decide, hn⟩
        · rcases h2 with h | ⟨h, hn⟩
          · exact Or.inl h
          · first | exact Or.inl h | exact Or.inr ⟨h, by decide, hn⟩
        · rcases h3 with h | ⟨h, hn⟩
          · exact Or.inl h
          · first | exact Or.inl h | exact Or.inr ⟨h, by decide, hn⟩
        · rcases h4 with h | ⟨h, hn⟩
          · exact Or.inl h
          · first | exact Or.inl h | exact Or.inr ⟨h, by decide, hn⟩

/-- An object whose members are those of `u`, in any order, decodes to `u`. -/
theorem unmarshalUser_members (u : User) (hid : inInt64 u.ID) (hage : inInt64 u.Age)
    (ms : List (String × JSON)) (hms : ms.Perm u.members) :
    unmarshalUser (.obj ms) = .ok u := by
  obtain ⟨u1, hf, h1, h2, h3, h4⟩ :=
    foldlM_storeField u hid hage ms (fun kv h => hms.mem_iff.mp h) User.zero
  have hmem : ∀ kv ∈ u.members, kv ∈ ms := fun kv h => hms.mem_iff.mpr h
  have e1 : u1.ID = u.ID := by
    rcases h1 with h | ⟨_, hn⟩
    · exact h
    · exact absurd rfl (hn ("id", .num (String.mk (formatInt u.ID))) (hmem _ (by simp [User.members])))
  have e2 : u1.Name = u.Name := by
    rcases h2 with h | ⟨_, hn⟩
    · exact h
    · exact absurd rfl (hn ("name", .str u.Name) (hmem _ (by simp [User.members])))
  have e3 : u1.Email = u.Email := by
    rcases h3 with h | ⟨_, hn⟩
    · exact h
    · exact absurd rfl (hn ("email", .str u.Email) (hmem _ (by simp [User.members])))
  have e4 : u1.Age = u.Age := by
    rcases h4 with h | ⟨_, hn⟩
    · exact h
    · exact absurd rfl (hn ("age", .num (String.mk (formatInt u.Age))) (hmem _ (by simp [User.members])))
  show ms.foldlM storeField User.zero = .ok u
  rw [hf]
  cases u1; cases u
  simp only at e1 e2 e3 e4
  simp [e1, e2, e3, e4]

/-! ## Decoding an object into `map[string]string` -/

theorem lookup_filter_ne (m : StringMap) (k k1 : String) (h : k1 ≠ k) :
    (m.filter (fun kv => kv.1 ≠ k)).lookup k1 = m.lookup k1 := by
  induction m with
  | nil => rfl
  | cons kv m ih =>
    obtain ⟨a, b⟩ := kv
    by_cases ha : a = k
    · subst ha
      have hb : (k1 == a) = false := by simpa using h
      simp only [List.filter, ne_eq, not_true_eq_false, decide_False, List.lookup, hb]
      exact ih
    · simp only [List.filter, ne_eq, ha, not_false_eq_true, decide_True, List.lookup]
      rw [ih]

theorem StringMap.index_store (m : StringMap) (k v k1 : String) :
    (m.store k v).index k1 = if k1 = k then v else m.index k1 := by
  unfold StringMap.index StringMap.store
  by_cases h : k1 = k
  · subst h; simp [List.lookup]
  · have hb : (k1 == k) = false := by simpa using h
    rw [if_neg h, List.lookup, hb]
    simp only
    rw [lookup_filter_ne m k k1 h]

theorem foldlM_storeMember (ms : List (String × JSON))
    (hms : ∀ kv ∈ ms, kv.2 = .null ∨ ∃ s, kv.2 = .str s) (m : StringMap) :
    ∃ m1, ms.foldlM storeMember m = .ok m1 ∧
      ∀ k, m1.index k = (match lastMember ms k with
        | some v => v.stringOrZero
        | none => m.index k) := by
  induction ms generalizing m with
  | nil => exact ⟨m, rfl, fun k => rfl⟩
  | cons kv ms ih =>
    have hrest : ∀ kv ∈ ms, kv.2 = .null ∨ ∃ s, kv.2 = .str s :=
      fun x hx => hms x (List.mem_cons_of_mem _ hx)
    have hstore : storeMember m kv = .ok (m.store kv.1 kv.2.stringOrZero) := by
      rcases hms kv (List.mem_cons_self _ _) with h | ⟨s, h⟩ <;>
        (unfold storeMember; rw [h]; rfl)
    obtain ⟨m1, hf, hidx⟩ := ih hrest (m.store kv.1 kv.2.stringOrZero)
    refine ⟨m1, ?_, ?_⟩
    · rw [List.foldlM_cons, hstore]; exact hf
    · intro k
      rw [hidx k]
      simp only [lastMember]
      cases hl : lastMember ms k with
      | some v => rfl
      | none =>
        simp only [StringMap.index_store]
        by_cases hk : kv.1 = k
        · rw [if_pos hk.symm, if_pos hk]
        · rw [if_neg (fun h => hk h.symm), if_neg hk]

/-- A status-200 body that is an object of string or null members decodes, and
`tokenResponse["token"]` is the value of its last `token` member, `""` if there is none. -/
theorem decodeTokenResponse_object (body : String) (ms : List (String × JSON))
    (hbody : readValue body.data = .ok (.obj ms))
    (hms : ∀ kv ∈ ms, kv.2 = .null ∨ ∃ s, kv.2 = .str s) :
    ∃ m, decodeTokenResponse body = .ok m ∧
      m.index "token" = (match lastMember ms "token" with
        | some v => v.stringOrZero
        | none => "") := by
  obtain ⟨m, hf, hidx⟩ := foldlM_storeMember ms hms []
  refine ⟨m, ?_, ?_⟩
  · unfold decodeTokenResponse
    rw [hbody]
    exact hf
  · rw [hidx "token"]
    cases lastMember ms "token" <;> rfl

/-- What `login` returns once the response is known. -/
theorem login_of_response (env : Env) (username password : String) (w w1 : World)
    (resp : Response)
    (hsend : sendRequest env "POST" "/login" (some (.auth ⟨username, password⟩)) w = (.ok resp, w1)) :
    login env username password w =
      (if resp.StatusCode ≠ StatusOK then
        (some (.errorf ("login failed: " ++ resp.Body)), w1)
      else
        match decodeTokenResponse resp.Body with
        | .error err => (some err, w1)
        | .ok tokenResponse => (none, { w1 with token := tokenResponse.index "token" })) := by
  rw [login_eq, hsend]

/-! ## Claims about `login` -/

/-- C1 (as amended): for every username, password and prior token, and every server
response with status 200 whose body is a JSON object all of whose member values are
strings or null and whose last member named `token` is the string `t`, `login`
returns no error and afterwards the session token is exactly `t`. -/
theorem login_sets_token_from_string_object (env : Env) (username password : String)
    (w w1 : World) (resp : Response) (ms : List (String × JSON)) (t : String)
    (hsend : sendRequest env "POST" "/login" (some (.auth ⟨username, password⟩)) w = (.ok resp, w1))
    (hstatus : resp.StatusCode = StatusOK)
    (hbody : readValue resp.Body.data = .ok (.obj ms))
    (hvalues : ∀ kv ∈ ms, kv.2 = .null ∨ ∃ s, kv.2 = .str s)
    (htoken : lastMember ms "token" = some (.str t)) :
    (login env username password w).1 = none ∧ (login env username password w).2.token = t := by
  obtain ⟨m, hm, hidx⟩ := decodeTokenResponse_object resp.Body ms hbody hvalues
  rw [htoken] at hidx
  rw [login_of_response env username password w w1 resp hsend, if_neg (by simp [hstatus]), hm]
  exact ⟨rfl, hidx⟩

theorem login_sets_token_from_string_object_witness :
    (login (mockServer 200 "\x7b\"token\":\"abc\",\"user\":\"ann\"\x7d") "ann" "secret" ⟨"old", [], []⟩).1
        = none ∧
      (login (mockServer 200 "\x7b\"token\":\"abc\",\"user\":\"ann\"\x7d") "ann" "secret" ⟨"old", [], []⟩).2.token
        = "abc" :=
  login_sets_token_from_string_object
    (mockServer 200 "\x7b\"token\":\"abc\",\"user\":\"ann\"\x7d") "ann" "secret" ⟨"old", [], []⟩ _
    ⟨200, "\x7b\"token\":\"abc\",\"user\":\"ann\"\x7d"⟩
    [("token", .str "abc"), ("user", .str "ann")] "abc" rfl rfl rfl
    (by simp) rfl

/-- C1 fails as stated: the body `{"token":"abc","ttl":5}` is a JSON object with the
string member `token` = `abc`, the status is 200, and `login` returns a type-mismatch
error and leaves the token what it was, `old`. -/
theorem login_fails_on_non_string_member :
    readValue "\x7b\"token\":\"abc\",\"ttl\":5\x7d".data
        = .ok (.obj [("token", .str "abc"), ("ttl", .num "5")]) ∧
      (login (mockServer 200 "\x7b\"token\":\"abc\",\"ttl\":5\x7d") "ann" "secret"
        ⟨"old", [], []⟩).1 = some (.jsonUnmarshalType "number" "string") ∧
      (login (mockServer 200 "\x7b\"token\":\"abc\",\"ttl\":5\x7d") "ann" "secret"
        ⟨"old", [], []⟩).2.token = "old" :=
  ⟨rfl, by decide, by decide⟩

/-- C2: for every username, password and prior token, and every server response whose
status is not 200, `login` returns an error (made by `fmt.Errorf`, with the body in
its text) and the session token after the call is the token before the call. -/
theorem login_non200_fails_token_unchanged (env : Env) (username password : String)
    (w w1 : World) (resp : Response)
    (hsend : sendRequest env "POST" "/login" (some (.auth ⟨username, password⟩)) w = (.ok resp, w1))
    (hstatus : resp.StatusCode ≠ StatusOK) :
    (login env username password w).1 = some (.errorf ("login failed: " ++ resp.Body)) ∧
      (login env username password w).2.token = w.token := by
  have hw := sendRequest_token env "POST" "/login" (some (.auth ⟨username, password⟩)) w
  rw [hsend] at hw
  rw [login_of_response env username password w w1 resp hsend, if_pos hstatus]
  exact ⟨rfl, hw⟩

theorem login_non200_fails_token_unchanged_witness :
    (login (mockServer 401 "bad credentials") "ann" "wrong" ⟨"old", [], []⟩).1
        = some (.errorf ("login failed: " ++ "bad credentials")) ∧
      (login (mockServer 401 "bad credentials") "ann" "wrong" ⟨"old", [], []⟩).2.token = "old" :=
  login_non200_fails_token_unchanged (mockServer 401 "bad credentials") "ann" "wrong"
    ⟨"old", [], []⟩ _ ⟨401, "bad credentials"⟩ rfl (by decide)

/-- C3 (as amended): for every server response with status 200 whose body is a JSON
object of string or null members that has no member named `token` (for example `{}`),
`login` returns success and sets the session token to the empty string. -/
theorem login_missing_token_succeeds_empty (env : Env) (username password : String)
    (w w1 : World) (resp : Response) (ms : List (String × JSON))
    (hsend : sendRequest env "POST" "/login" (some (.auth ⟨username, password⟩)) w = (.ok resp, w1))
    (hstatus : resp.StatusCode = StatusOK)
    (hbody : readValue resp.Body.data = .ok (.obj ms))
    (hvalues : ∀ kv ∈ ms, kv.2 = .null ∨ ∃ s, kv.2 = .str s)
    (hmissing : ∀ kv ∈ ms, kv.1 ≠ "token") :
    (login env username password w).1 = none ∧ (login env username password w).2.token = "" := by
  have hlast : lastMember ms "token" = none := by
    clear hbody hvalues
    induction ms with
    | nil => rfl
    | cons kv ms ih =>
      simp only [lastMember, ih (fun x hx => hmissing x (List.mem_cons_of_mem _ hx)),
        if_neg (hmissing kv (List.mem_cons_self _ _))]
  obtain ⟨m, hm, hidx⟩ := decodeTokenResponse_object resp.Body ms hbody hvalues
  rw [hlast] at hidx
  rw [login_of_response env username password w w1 resp hsend, if_neg (by simp [hstatus]), hm]
  exact ⟨rfl, hidx⟩

theorem login_missing_token_succeeds_empty_witness :
    (login (mockServer 200 "\x7b\"user\":\"ann\"\x7d") "ann" "secret" ⟨"old", [], []⟩).1 = none ∧
      (login (mockServer 200 "\x7b\"user\":\"ann\"\x7d") "ann" "secret" ⟨"old", [], []⟩).2.token = "" :=
  login_missing_token_succeeds_empty (mockServer 200 "\x7b\"user\":\"ann\"\x7d") "ann" "secret"
    ⟨"old", [], []⟩ _ ⟨200, "\x7b\"user\":\"ann\"\x7d"⟩ [("user", .str "ann")] rfl rfl rfl
    (by simp) (by simp)

/-- C3 fails as stated: answered with status 200 and the body `{}`, `login` returns
the nil error (no decode error) and overwrites the token with the empty string. -/
theorem login_empty_object_succeeds :
    readValue "\x7b\x7d".data = .ok (.obj []) ∧
      (login (mockServer 200 "\x7b\x7d") "ann" "secret" ⟨"old", [], []⟩).1 = none ∧
      (login (mockServer 200 "\x7b\x7d") "ann" "secret" ⟨"old", [], []⟩).2.token = "" :=
  ⟨rfl, by decide, by decide⟩

/-! ## Claims about the session token across operations -/

/-- C10: the session token is written only by a `login` call that returns success.
Whatever the token, the arguments and the environment (transport failure, any
status, any body), an operation leaves the token unchanged unless it is a `login`
that returns the nil error; in particular `listUsers`, `createUser`, `updateUser` and
`deleteUser` always leave it unchanged, and so does a `login` that returns an error. -/
theorem token_written_only_by_successful_login (env : Env) (op : Op) (w : World)
    (h : ∀ username password, op = .login username password →
      (login env username password w).1 ≠ none) :
    (op.run env w).token = w.token := by
  cases op with
  | login username password => exact login_error_token env username password w (h _ _ rfl)
  | listUsers => exact listUsers_token env w
  | createUser name email age => exact createUser_token env name email age w
  | updateUser id name email age => exact updateUser_token env id name email age w
  | deleteUser id => exact deleteUser_token env id w

theorem token_written_only_by_successful_login_witness :
    ((Op.login "ann" "secret").run (mockServer 200 "not json") ⟨"old", [], []⟩).token = "old" :=
  token_written_only_by_successful_login (mockServer 200 "not json") (.login "ann" "secret")
    ⟨"old", [], []⟩ (by
      intro username password h
      cases h
      show (login (mockServer 200 "not json") "ann" "secret" ⟨"old", [], []⟩).1 ≠ none
      decide)

/-- After an operation the token is what it was, unless the operation is a `login`
that returned the nil error. -/
theorem run_token_cases (env : Env) (op : Op) (w : World) :
    (op.run env w).token = w.token ∨
      ∃ username password, op = .login username password ∧
        (login env username password w).1 = none := by
  cases op with
  | login username password =>
    by_cases h : (login env username password w).1 = none
    · exact Or.inr ⟨username, password, rfl, h⟩
    · exact Or.inl (login_error_token env username password w h)
  | listUsers => exact Or.inl (listUsers_token env w)
  | createUser name email age => exact Or.inl (createUser_token env name email age w)
  | updateUser id name email age => exact Or.inl (updateUser_token env id name email age w)
  | deleteUser id => exact Or.inl (deleteUser_token env id w)

/-- C6 (as amended): for every sequence of operations with arbitrary arguments and
arbitrary server behaviour, a non-empty session token stays non-empty after every
later operation, provided that every `login` of the sequence that returns success
stores a non-empty token; `listUsers`, `createUser`, `updateUser`, `deleteUser` and a
failing `login` never change the token. -/
theorem token_stays_nonempty_unless_login_empties (steps : List (Env × Op)) (w : World)
    (hw : w.token ≠ "")
    (hlogin : ∀ before env username password after,
      steps = before ++ (env, Op.login username password) :: after →
      (login env username password (runAll before w)).1 = none →
      (login env username password (runAll before w)).2.token ≠ "") :
    (runAll steps w).token ≠ "" := by
  induction steps generalizing w with
  | nil => exact hw
  | cons step rest ih =>
    obtain ⟨env, op⟩ := step
    show (runAll rest (op.run env w)).token ≠ ""
    apply ih
    · rcases run_token_cases env op w with h | ⟨username, password, rfl, hnone⟩
      · rw [h]; exact hw
      · exact hlogin [] env username password rest rfl hnone
    · intro before env1 username password after hsplit hnone
      exact hlogin ((env, op) :: before) env1 username password after (by rw [hsplit]; rfl) hnone

theorem token_stays_nonempty_unless_login_empties_witness :
    (runAll [(mockServer 200 "\x7b\"token\":\"xyz\"\x7d", Op.login "ann" "secret"),
      (mockServer 404 "not found", Op.deleteUser 5)] ⟨"abc", [], []⟩).token ≠ "" :=
  token_stays_nonempty_unless_login_empties
    [(mockServer 200 "\x7b\"token\":\"xyz\"\x7d", Op.login "ann" "secret"),
      (mockServer 404 "not found", Op.deleteUser 5)] ⟨"abc", [], []⟩ (by decide)
    (by
      intro before env username password after hsplit _
      rcases before with _ | ⟨b0, _ | ⟨b1, before⟩⟩
      · simp only [List.nil_append, List.cons.injEq, Prod.mk.injEq, Op.login.injEq] at hsplit
        obtain ⟨⟨rfl, rfl, rfl⟩, rfl⟩ := hsplit
        decide
      · simp at hsplit
      · simp at hsplit)

/-- C6 fails as stated: after a `login` answered with `{"token":"abc"}` the token is
`abc`; a second `login` answered with status 200 and `{"token":""}` returns success and
the token is empty again. -/
theorem login_can_reset_token :
    (runAll [(mockServer 200 "\x7b\"token\":\"abc\"\x7d", Op.login "ann" "secret")]
        ⟨"", [], []⟩).token = "abc" ∧
      (runAll [(mockServer 200 "\x7b\"token\":\"abc\"\x7d", Op.login "ann" "secret"),
        (mockServer 200 "\x7b\"token\":\"\"\x7d", Op.login "ann" "secret")]
        ⟨"", [], []⟩).token = "" :=
  ⟨by decide, by decide⟩

/-! ## Claims about the requests and the failure reports -/

theorem NewRequest_ok (env : Env) (method url body : String) (req : Request)
    (h : NewRequest env method url body = .ok req) :
    req = ⟨if method = "" then "GET" else method, url, [], body⟩ := by
  unfold NewRequest at h
  simp only at h
  generalize (if method = "" then "GET" else method) = m at h ⊢
  by_cases hv : validMethod m = true
  · rw [if_neg (by simpa using hv)] at h
    cases hu : env.urlParse url with
    | some msg => rw [hu] at h; exact absurd h (by simp)
    | none => rw [hu] at h; simp only [Except.ok.injEq] at h; exact h.symm
  · rw [if_pos hv] at h
    exact absurd h (by simp)

/-- What `buildRequest` returns when it returns a request. -/
theorem buildRequest_ok (env : Env) (token method endpoint : String)
    (body : Option Payload) (req : Request)
    (h : buildRequest env token method endpoint body = .ok req) :
    ∃ jsonData, (match body with
        | some b => Marshal b
        | none => .ok "") = .ok jsonData ∧
      req = ⟨if method = "" then "GET" else method, baseURL ++ endpoint,
        Header.Set (if token ≠ "" then Header.Set [] "Authorization" ("Bearer " ++ token) else [])
          "Content-Type" "application/json", jsonData⟩ := by
  unfold buildRequest at h
  simp only at h
  cases hm : (match body with
      | some b => Marshal b
      | none => Except.ok "") with
  | error err => rw [hm] at h; exact absurd h (by simp)
  | ok jsonData =>
    rw [hm] at h
    simp only at h
    cases hn : NewRequest env method (baseURL ++ endpoint) jsonData with
    | error err => rw [hn] at h; exact absurd h (by simp)
    | ok req0 =>
      rw [hn] at h
      have h0 := NewRequest_ok env method _ _ req0 hn
      subst h0
      simp only [Except.ok.injEq] at h
      refine ⟨jsonData, rfl, ?_⟩
      rw [← h]
      by_cases ht : token = ""
      · simp [ht]
      · simp [ht]

theorem buildRequest_carriesToken (env : Env) (token method endpoint : String)
    (body : Option Payload) (req : Request)
    (h : buildRequest env token method endpoint body = .ok req) : carriesToken token req := by
  obtain ⟨jsonData, _, hreq⟩ := buildRequest_ok env token method endpoint body req h
  have hk1 : canonicalMIMEHeaderKey "Authorization" = "Authorization" := by decide
  have hk2 : canonicalMIMEHeaderKey "Content-Type" = "Content-Type" := by decide
  subst hreq
  by_cases ht : token = ""
  · refine ⟨fun hne => absurd ht hne, fun _ => ?_⟩
    simp only [ht, ne_eq, not_true_eq_false, if_false, Header.Set, hk2, Header.values]
    decide
  · refine ⟨fun _ => ?_, fun he => absurd he ht⟩
    simp only [ne_eq, ht, not_false_eq_true, if_true, Header.Set, hk1, hk2, Header.values,
      List.filter_nil, List.nil_append]
    rfl

/-- An operation hands at most one request to `client.Do`: the one its
`sendRequest` call builds. -/
theorem run_wire (env : Env) (op : Op) (w : World) :
    (op.run env w).wire = (op.send env w).2.wire := by
  cases op with
  | login username password =>
    show (login env username password w).2.wire = _
    unfold Op.send Op.call
    rw [login_eq]
    generalize sendRequest env "POST" "/login" (some (.auth ⟨username, password⟩)) w = r
    rcases r with ⟨_ | resp, w1⟩
    · rfl
    · simp only
      split
      · rfl
      · split <;> rfl
  | listUsers =>
    show (listUsers env w).wire = _
    unfold Op.send Op.call listUsers
    generalize sendRequest env "GET" "/users" none w = r
    rcases r with ⟨_ | resp, w1⟩
    · rfl
    · simp only
      split
      · rfl
      · split
        · rfl
        · rw [printUsers_wire]; rfl
  | createUser name email age =>
    show (createUser env name email age w).wire = _
    unfold Op.send Op.call createUser
    simp only
    generalize sendRequest env "POST" "/users" (some (.user ⟨0, name, email, age⟩)) w = r
    rcases r with ⟨_ | resp, w1⟩
    · rfl
    · simp only
      split
      · rfl
      · split <;> rfl
  | updateUser id name email age =>
    show (updateUser env id name email age w).wire = _
    unfold Op.send Op.call updateUser
    simp only
    generalize sendRequest env "PUT" ("/users/" ++ String.mk (formatInt id))
      (some (.user ⟨id, name, email, age⟩)) w = r
    rcases r with ⟨_ | resp, w1⟩
    · rfl
    · simp only
      split <;> rfl
  | deleteUser id =>
    show (deleteUser env id w).wire = _
    unfold Op.send Op.call deleteUser
    simp only
    generalize sendRequest env "DELETE" ("/users/" ++ String.mk (formatInt id)) none w = r
    rcases r with ⟨_ | resp, w1⟩
    · rfl
    · simp only
      split <;> rfl

/-- C4: for every method, endpoint, body and session token, the request `sendRequest`
builds and hands to `client.Do` carries the header `Authorization` with the value
`Bearer ` followed by exactly the current token if the token is non-empty, and no
`Authorization` header if the token is empty; every request that an operation
(`listUsers`, `createUser`, `updateUser`, `deleteUser`, and `login` as well) sends is
built this way. -/
theorem sendRequest_authorization_header (env : Env) (w : World) :
    (∀ method endpoint body req,
        buildRequest env w.token method endpoint body = .ok req →
        carriesToken w.token req ∧
          (sendRequest env method endpoint body w).2.wire = w.wire ++ [req]) ∧
    (∀ op : Op,
        (op.run env w).wire = w.wire ∨
          ∃ req, (op.run env w).wire = w.wire ++ [req] ∧ carriesToken w.token req) := by
  have hsend : ∀ method endpoint body req,
      buildRequest env w.token method endpoint body = .ok req →
      carriesToken w.token req ∧
        (sendRequest env method endpoint body w).2.wire = w.wire ++ [req] := by
    intro method endpoint body req h
    refine ⟨buildRequest_carriesToken env w.token method endpoint body req h, ?_⟩
    rcases sendRequest_spec env method endpoint body w with ⟨err, hb, _⟩ | ⟨req1, hb, hw, _⟩
    · rw [h] at hb; exact absurd hb (by simp)
    · rw [h] at hb; cases hb; rw [hw]
  refine ⟨hsend, ?_⟩
  intro op
  rw [run_wire]
  unfold Op.send
  rcases sendRequest_spec env op.call.1 op.call.2.1 op.call.2.2 w with
    ⟨err, _, hw⟩ | ⟨req, hb, _, _⟩
  · exact Or.inl (by rw [hw])
  · exact Or.inr ⟨req, (hsend _ _ _ req hb).2, (hsend _ _ _ req hb).1⟩

theorem sendRequest_authorization_header_witness :
    carriesToken "abc" ⟨"GET", "http://localhost:8000/users",
        [("Authorization", ["Bearer abc"]), ("Content-Type", ["application/json"])], ""⟩ ∧
      (sendRequest (mockServer 200 "[]") "GET" "/users" none ⟨"abc", [], []⟩).2.wire =
        [] ++ [⟨"GET", "http://localhost:8000/users",
          [("Authorization", ["Bearer abc"]), ("Content-Type", ["application/json"])], ""⟩] :=
  (sendRequest_authorization_header (mockServer 200 "[]") ⟨"abc", [], []⟩).1
    "GET" "/users" none
    ⟨"GET", "http://localhost:8000/users",
      [("Authorization", ["Bearer abc"]), ("Content-Type", ["application/json"])], ""⟩ rfl

/-- What an operation other than `login` does once its response is known and the
status is not 200: it prints `Error:` and the body. -/
theorem run_non200 (env : Env) (op : Op) (w w1 : World) (resp : Response)
    (hop : ∀ username password, op ≠ .login username password)
    (hsend : op.send env w = (.ok resp, w1))
    (hstatus : resp.StatusCode ≠ StatusOK) :
    op.run env w = Println [.text "Error:", .text resp.Body] w1 := by
  cases op with
  | login username password => exact absurd rfl (hop username password)
  | listUsers =>
    show listUsers env w = _
    unfold Op.send Op.call at hsend
    unfold listUsers
    rw [hsend]
    simp only [if_pos hstatus]
  | createUser name email age =>
    show createUser env name email age w = _
    unfold Op.send Op.call at hsend
    unfold createUser
    simp only at hsend ⊢
    rw [hsend]
    simp only [if_pos hstatus]
  | updateUser id name email age =>
    show updateUser env id name email age w = _
    unfold Op.send Op.call at hsend
    unfold updateUser
    simp only at hsend ⊢
    rw [hsend]
    simp only [if_pos hstatus]
  | deleteUser id =>
    show deleteUser env id w = _
    unfold Op.send Op.call at hsend
    unfold deleteUser
    simp only at hsend ⊢
    rw [hsend]
    simp only [if_pos hstatus]

/-- C5 (as amended): for each of `listUsers`, `createUser`, `updateUser` and
`deleteUser`, and for every server response whose status code is not 200 with body
text `b`, the operation reports a failure that carries the raw body text `b` and
nothing else: it prints exactly `Error: b` and a newline.  The report holds no
decode error and does not hold the status code. -/
theorem non200_reports_body_only (env : Env) (op : Op) (w w1 : World) (resp : Response)
    (hop : ∀ username password, op ≠ .login username password)
    (hsend : op.send env w = (.ok resp, w1))
    (hstatus : resp.StatusCode ≠ StatusOK) :
    (op.run env w).stdout =
        w.stdout ++ [.text "Error:", .text " ", .text resp.Body, .text "\n"] ∧
      (op.run env w).token = w.token := by
  have hout : w1.stdout = w.stdout := by
    have h := sendRequest_stdout env op.call.1 op.call.2.1 op.call.2.2 w
    unfold Op.send at hsend
    rw [hsend] at h
    exact h
  have htok : w1.token = w.token := by
    have h := sendRequest_token env op.call.1 op.call.2.1 op.call.2.2 w
    unfold Op.send at hsend
    rw [hsend] at h
    exact h
  rw [run_non200 env op w w1 resp hop hsend hstatus, Println_stdout, Println_token, hout, htok]
  simp [List.intersperse]

theorem non200_reports_body_only_witness :
    ((Op.updateUser 5 "Bob" "bob@x.com" 41).run (mockServer 404 "not found") ⟨"abc", [], []⟩).stdout =
        [] ++ [.text "Error:", .text " ", .text "not found", .text "\n"] ∧
      ((Op.updateUser 5 "Bob" "bob@x.com" 41).run (mockServer 404 "not found") ⟨"abc", [], []⟩).token
        = "abc" :=
  non200_reports_body_only (mockServer 404 "not found") (.updateUser 5 "Bob" "bob@x.com" 41)
    ⟨"abc", [], []⟩ _ ⟨404, "not found"⟩ (by intro _ _ h; cases h) rfl (by decide)

/-- C5 fails as stated: `updateUser(5, ...)` answered with status 404 and body
`not found` and the same call answered with status 500 and the same body leave the
process in the same state, the output being `Error: not found`; the report does not
carry the status code. -/
theorem updateUser_report_omits_status :
    updateUser (mockServer 404 "not found") 5 "Bob" "bob@x.com" 41 ⟨"abc", [], []⟩ =
        updateUser (mockServer 500 "not found") 5 "Bob" "bob@x.com" 41 ⟨"abc", [], []⟩ ∧
      (updateUser (mockServer 404 "not found") 5 "Bob" "bob@x.com" 41 ⟨"abc", [], []⟩).stdout =
        [.text "Error:", .text " ", .text "not found", .text "\n"] :=
  ⟨by decide, by decide⟩

/-! ## Claims about `createUser`, `listUsers` and the JSON form of a `User` -/

/-- With a valid method and a URL that parses, `buildRequest` returns the request
with the marshalled body. -/
theorem buildRequest_user (env : Env) (token method endpoint : String) (u : User)
    (hmethod : validMethod method = true) (hne : method ≠ "")
    (hurl : env.urlParse (baseURL ++ endpoint) = none) :
    ∃ header, buildRequest env token method endpoint (some (.user u)) =
      .ok ⟨method, baseURL ++ endpoint, header, String.mk (marshalUser u)⟩ := by
  unfold buildRequest
  simp only [Marshal, NewRequest, if_neg hne, hmethod, not_true_eq_false, if_false, hurl]
  by_cases ht : token = ""
  · rw [if_neg (by simp [ht])]; exact ⟨_, rfl⟩
  · rw [if_pos ht]; exact ⟨_, rfl⟩

/-- C7 (as amended): for every name, email and age, the request `createUser` sends
(the URL being one that parses) is a POST to the base address joined with `/users`
whose JSON body is a User object with the member `id` equal to 0 and the submitted
name, email and age. -/
theorem createUser_request_has_id_zero (env : Env) (name email : String) (age : Int) (w : World)
    (hurl : env.urlParse (baseURL ++ "/users") = none) :
    ∃ req, (createUser env name email age w).wire = w.wire ++ [req] ∧
      req.Method = "POST" ∧ req.URL = baseURL ++ "/users" ∧
      req.Body = String.mk (marshalUser ⟨0, name, email, age⟩) ∧
      readValue req.Body.data = .ok (.obj [("id", .num "0"), ("name", .str name),
        ("email", .str email), ("age", .num (String.mk (formatInt age)))]) := by
  obtain ⟨header, hb⟩ := buildRequest_user env w.token "POST" "/users" ⟨0, name, email, age⟩
    (by decide) (by decide) hurl
  refine ⟨⟨"POST", baseURL ++ "/users", header, String.mk (marshalUser ⟨0, name, email, age⟩)⟩,
    ?_, rfl, rfl, rfl, ?_⟩
  · have hrun := run_wire env (.createUser name email age) w
    have hw : (sendRequest env "POST" "/users" (some (.user ⟨0, name, email, age⟩)) w).2.wire =
        w.wire ++ [⟨"POST", baseURL ++ "/users", header,
          String.mk (marshalUser ⟨0, name, email, age⟩)⟩] := by
      rcases sendRequest_spec env "POST" "/users" (some (.user ⟨0, name, email, age⟩)) w with
        ⟨err, hb1, _⟩ | ⟨req1, hb1, hw1, _⟩
      · rw [hb] at hb1; exact absurd hb1 (by simp)
      · rw [hb] at hb1; cases hb1; rw [hw1]
    exact hrun.trans hw
  · exact readValue_marshalUser ⟨0, name, email, age⟩

theorem createUser_request_has_id_zero_witness :
    ∃ req, (createUser (mockServer 200 "") "Alice" "alice@x.com" 30 ⟨"abc", [], []⟩).wire =
        [] ++ [req] ∧
      req.Method = "POST" ∧ req.URL = baseURL ++ "/users" ∧
      req.Body = String.mk (marshalUser ⟨0, "Alice", "alice@x.com", 30⟩) ∧
      readValue req.Body.data = .ok (.obj [("id", .num "0"), ("name", .str "Alice"),
        ("email", .str "alice@x.com"), ("age", .num (String.mk (formatInt 30)))]) :=
  createUser_request_has_id_zero (mockServer 200 "") "Alice" "alice@x.com" 30 ⟨"abc", [], []⟩ rfl

/-- C7 fails as stated: the body `createUser("Alice", "alice@x.com", 30)` sends is
`{"id":0,"name":"Alice","email":"alice@x.com","age":30}`, an object that has an
`id` member. -/
theorem createUser_body_has_id_member :
    (createUser (mockServer 200 "") "Alice" "alice@x.com" 30 ⟨"", [], []⟩).wire =
        [⟨"POST", "http://localhost:8000/users", [("Content-Type", ["application/json"])],
          "\x7b\"id\":0,\"name\":\"Alice\",\"email\":\"alice@x.com\",\"age\":30\x7d"⟩] ∧
      readValue "\x7b\"id\":0,\"name\":\"Alice\",\"email\":\"alice@x.com\",\"age\":30\x7d".data =
        .ok (.obj [("id", .num "0"), ("name", .str "Alice"), ("email", .str "alice@x.com"),
          ("age", .num "30")]) :=
  ⟨by decide, rfl⟩

/-- Decoding the text `json.Marshal` writes for a `User` gives the `User` back. -/
theorem decodeUser_marshalUser (u : User) (hid : inInt64 u.ID) (hage : inInt64 u.Age) :
    decodeUser (String.mk (marshalUser u)) = .ok u := by
  unfold decodeUser
  rw [readValue_marshalUser]
  exact unmarshalUser_members u hid hage u.members (List.Perm.refl _)

/-- C8: for every `User` `u` (any id and age of type `int`, any name and email),
decoding into a `User` the JSON text that the client's serialization produces for
`u` yields a `User` equal to `u` in all four fields; and `createUser`, answered with
status 200 and that text for the submitted name, email and age (with whatever id
the server set, for example 1), reports exactly that `User`. -/
theorem user_json_roundtrip (u : User) (hid : inInt64 u.ID) (hage : inInt64 u.Age) :
    decodeUser (String.mk (marshalUser u)) = .ok u ∧
      ∀ (env : Env) (w w1 : World) (resp : Response),
        sendRequest env "POST" "/users" (some (.user ⟨0, u.Name, u.Email, u.Age⟩)) w
          = (.ok resp, w1) →
        resp.StatusCode = StatusOK →
        resp.Body = String.mk (marshalUser u) →
        createUser env u.Name u.Email u.Age w = Printf (formatUser "User created: " u) w1 := by
  refine ⟨decodeUser_marshalUser u hid hage, ?_⟩
  intro env w w1 resp hsend hstatus hbody
  unfold createUser
  simp only
  rw [hsend]
  simp only [hstatus, ne_eq, not_true_eq_false, if_false, hbody, decodeUser_marshalUser u hid hage]

theorem user_json_roundtrip_witness :
    decodeUser (String.mk (marshalUser ⟨1, "Alice", "alice@x.com", 30⟩))
        = .ok ⟨1, "Alice", "alice@x.com", 30⟩ ∧
      createUser (mockServer 200 (String.mk (marshalUser ⟨1, "Alice", "alice@x.com", 30⟩)))
          "Alice" "alice@x.com" 30 ⟨"abc", [], []⟩ =
        ⟨"abc", [.text "User created: ID: 1, Name: Alice, Email: alice@x.com, Age: 30\n"],
          [⟨"POST", "http://localhost:8000/users",
            [("Authorization", ["Bearer abc"]), ("Content-Type", ["application/json"])],
            "\x7b\"id\":0,\"name\":\"Alice\",\"email\":\"alice@x.com\",\"age\":30\x7d"⟩]⟩ :=
  ⟨(user_json_roundtrip ⟨1, "Alice", "alice@x.com", 30⟩ (by decide) (by decide)).1,
    (user_json_roundtrip ⟨1, "Alice", "alice@x.com", 30⟩ (by decide) (by decide)).2
      (mockServer 200 (String.mk (marshalUser ⟨1, "Alice", "alice@x.com", 30⟩)))
      ⟨"abc", [], []⟩ _ ⟨200, String.mk (marshalUser ⟨1, "Alice", "alice@x.com", 30⟩)⟩ rfl rfl rfl⟩

theorem mapM_unmarshalUser (us : List User) (js : List JSON)
    (h : List.Forall₂ isUserObject us js) : js.mapM unmarshalUser = .ok us := by
  induction h with
  | nil => rfl
  | cons hd _ ih =>
    obtain ⟨hid, hage, ms, rfl, hperm⟩ := hd
    rw [List.mapM_cons, unmarshalUser_members _ hid hage ms hperm, ih]
    rfl

/-- The line `listUsers` prints for a user is the text of the format
`"ID: %d, Name: %s, Email: %s, Age: %d\n"` with the four fields of the user. -/
theorem formatUser_line (u : User) :
    formatUser "" u = "ID: " ++ String.mk (formatInt u.ID) ++ ", Name: " ++ u.Name ++
      ", Email: " ++ u.Email ++ ", Age: " ++ String.mk (formatInt u.Age) ++ "\n" := by
  unfold formatUser
  have h : ("" : String) ++ "ID: " = "ID: " := by decide
  rw [h]

/-- C9: for every server response with status 200 whose body is a JSON array of User
objects, `listUsers` decodes exactly the Users of that array and reports no error: it
prints the heading `Users:` and then, in the array's order, one line per User that
spells out that User's id, name, email and age
(`ID: <id>, Name: <name>, Email: <email>, Age: <age>`); for the body `[]` it prints
the heading alone. -/
theorem listUsers_prints_array (env : Env) (w w1 : World) (resp : Response)
    (hsend : sendRequest env "GET" "/users" none w = (.ok resp, w1))
    (hstatus : resp.StatusCode = StatusOK) :
    (∀ (us : List User) (js : List JSON),
        readValue resp.Body.data = .ok (.arr js) → List.Forall₂ isUserObject us js →
        decodeUsers resp.Body = .ok us ∧
          (listUsers env w).stdout = w.stdout ++ [.text "Users:", .text "\n"] ++
            us.map (fun u => Out.text
              ("ID: " ++ String.mk (formatInt u.ID) ++ ", Name: " ++ u.Name ++
                ", Email: " ++ u.Email ++ ", Age: " ++ String.mk (formatInt u.Age) ++ "\n"))) ∧
    (resp.Body = "[]" →
        decodeUsers resp.Body = .ok [] ∧
          (listUsers env w).stdout = w.stdout ++ [.text "Users:", .text "\n"]) := by
  have hout : w1.stdout = w.stdout := by
    have h := sendRequest_stdout env "GET" "/users" none w
    rw [hsend] at h
    exact h
  have hrun : ∀ us, decodeUsers resp.Body = .ok us →
      (listUsers env w).stdout = w.stdout ++ [.text "Users:", .text "\n"] ++
        us.map (fun u => Out.text
          ("ID: " ++ String.mk (formatInt u.ID) ++ ", Name: " ++ u.Name ++
            ", Email: " ++ u.Email ++ ", Age: " ++ String.mk (formatInt u.Age) ++ "\n")) := by
    intro us hdec
    unfold listUsers
    rw [hsend]
    simp only [hstatus, ne_eq, not_true_eq_false, if_false, hdec]
    rw [printUsers_stdout, Println_stdout, hout]
    simp only [formatUser_line]
    simp [List.intersperse]
  constructor
  · intro us js hbody hjs
    have hdec : decodeUsers resp.Body = .ok us := by
      unfold decodeUsers
      rw [hbody]
      exact mapM_unmarshalUser us js hjs
    exact ⟨hdec, hrun us hdec⟩
  · intro hbody
    have hdec : decodeUsers resp.Body = .ok [] := by rw [hbody]; rfl
    refine ⟨hdec, ?_⟩
    rw [hrun [] hdec]
    simp

theorem listUsers_prints_array_witness :
    decodeUsers
        ("[\x7b\"id\":1,\"name\":\"Alice\",\"email\":\"alice@x.com\",\"age\":30\x7d, " ++
          "\x7b\"age\":41,\"email\":\"bob@x.com\",\"name\":\"Bob\",\"id\":2\x7d]") =
        .ok [⟨1, "Alice", "alice@x.com", 30⟩, ⟨2, "Bob", "bob@x.com", 41⟩] ∧
      (listUsers (mockServer 200
        ("[\x7b\"id\":1,\"name\":\"Alice\",\"email\":\"alice@x.com\",\"age\":30\x7d, " ++
          "\x7b\"age\":41,\"email\":\"bob@x.com\",\"name\":\"Bob\",\"id\":2\x7d]"))
        ⟨"abc", [], []⟩).stdout =
      [.text "Users:", .text "\n",
        .text "ID: 1, Name: Alice, Email: alice@x.com, Age: 30\n",
        .text "ID: 2, Name: Bob, Email: bob@x.com, Age: 41\n"] :=
  (listUsers_prints_array
    (mockServer 200
      ("[\x7b\"id\":1,\"name\":\"Alice\",\"email\":\"alice@x.com\",\"age\":30\x7d, " ++
        "\x7b\"age\":41,\"email\":\"bob@x.com\",\"name\":\"Bob\",\"id\":2\x7d]"))
    ⟨"abc", [], []⟩ _ ⟨200, _⟩ rfl rfl).1
    [⟨1, "Alice", "alice@x.com", 30⟩, ⟨2, "Bob", "bob@x.com", 41⟩]
    [.obj (User.members ⟨1, "Alice", "alice@x.com", 30⟩),
      .obj (User.members ⟨2, "Bob", "bob@x.com", 41⟩).reverse]
    rfl
    (List.Forall₂.cons ⟨by decide, by decide, _, rfl, List.Perm.refl _⟩
      (List.Forall₂.cons ⟨by decide, by decide, _, rfl, List.reverse_perm _⟩
        List.Forall₂.nil))

end GoLaba9
